import Mathlib

/-!
# UV-K5 firmware, serial command channel (`app/uart.c`)

A shallow embedding of the frame extractor `UART_IsCommandAvailable`, the
transport obfuscation used by `SendReply`, the challenge check
`IsBadChallenge`, the lock handler `CMD_052D` and the memory handlers
`CMD_051B` and `CMD_051D`, followed by the properties proved about them.

Conventions of the embedding.

* Memory (`uint8_t` arrays, `uint32_t[4]` arrays) is a function from the
  element index to the element value, a natural number.
* `sizeof(UART_DMA_Buffer)` is declared in `driver/uart.h`; it is the
  parameter `cap`.  `CRC_Calculate` (`driver/crc.h`) and `AES_Encrypt`
  (`driver/aes.h`) are parameters as well.
* The cursors `g_uart_write_index`, `Index`, `TailIndex`, `CommandLength` are
  `uint16_t` in the source.  With the write cursor below `cap`, every value
  stored in them is at most `cap`, so for `cap ≤ 65535` no store truncates
  and the arithmetic is written over `Nat`.
* A function that loops is given fuel; running out of fuel, and a copy that
  would leave the 256-byte `UART_Command.Buffer`, are `none`.
* A handler returns the state it leaves together with the list of calls it
  made to storage and to `SendReply`, in order.  Persistent storage is a
  memory indexed by address; `EEPROM_ReadBuffer` and `EEPROM_WriteBuffer`
  (`driver/eeprom.h`) are modelled from the spec, `BOARD_EEPROM_Init` is a
  parameter.
-/

namespace UvK5

/-! ## Memory helpers -/

/-- Byte- or word-addressed memory: element index to element value. -/
abbrev Mem := Nat → Nat

/-- One array store `m[i] = v`. -/
def store (m : Mem) (i v : Nat) : Mem := fun j => if j = i then v else m j

/-- The call `memmove(dst + d, src + s, n)` for two distinct arrays. -/
def memmove (dst : Mem) (d : Nat) (src : Mem) (s n : Nat) : Mem :=
  fun j => if d ≤ j ∧ j < d + n then src (s + (j - d)) else dst j

/-- The call `memset(dst + d, v, n)`. -/
def memset (dst : Mem) (d v n : Nat) : Mem :=
  fun j => if d ≤ j ∧ j < d + n then v else dst j

/-- A 16-bit value assembled from a low and a high byte,
`(hi << 8) | lo` stored in a `uint16_t`. -/
def le16 (lo hi : Nat) : Nat := ((hi <<< 8) ||| lo) % 65536

/-- A memory holding the listed elements from index 0 on, zero elsewhere. -/
def memOf (l : List Nat) : Mem := fun i => l.getD i 0

/-- The first `n` elements of a memory, as a list. -/
def bytes (m : Mem) (n : Nat) : List Nat := (List.range n).map m

/-! ## Transport codec -/

/-- The table `Obfuscation[16]` (uart.c, line 141). -/
def Obfuscation : List Nat :=
  [0x16, 0x6C, 0x14, 0xE6, 0x2E, 0x91, 0x0D, 0x40,
   0x21, 0x35, 0xD5, 0x40, 0x13, 0x03, 0xE9, 0x80]

/-- The loop `for (i = 0; i < n; i++) pBytes[i] ^= Obfuscation[i % 16];`
shared by `SendReply` (line 169) and `UART_IsCommandAvailable` (line 523):
the memory after `n` iterations. -/
def xorLoop (buf : Mem) : Nat → Mem
  | 0 => buf
  | n + 1 =>
    let b := xorLoop buf n
    store b n (b n ^^^ Obfuscation.getD (n % 16) 0)

/-- Result of `SendReply`: the reply memory as the function leaves it and the
bytes handed to `UART_Send`, in order. -/
structure Sent where
  pReply : Mem
  wire : List Nat

/-- `SendReply(pReply, Size)` (uart.c, line 160). -/
def SendReply (bIsEncrypted : Bool) (pReply : Mem) (Size : Nat) : Sent :=
  let pReply := if bIsEncrypted then xorLoop pReply Size else pReply
  let Header : List Nat := [0xAB, 0xCD, Size % 256, Size / 256 % 256]
  let Padding : List Nat :=
    if bIsEncrypted then
      [Obfuscation.getD ((Size + 0) % 16) 0 ^^^ 0xFF, Obfuscation.getD ((Size + 1) % 16) 0 ^^^ 0xFF]
    else [0xFF, 0xFF]
  let Footer : List Nat := Padding ++ [0xDC, 0xBA]
  { pReply := pReply, wire := Header ++ bytes pReply Size ++ Footer }

/-! ## Ring extractor -/

/-- `DMA_INDEX(x, y)` (uart.c, line 44), `cap` being `sizeof(UART_DMA_Buffer)`. -/
def DMA_INDEX (cap x y : Nat) : Nat := (x + y) % cap

/-- The static state of uart.c that the extractor reads and writes. -/
structure UartState where
  UART_DMA_Buffer : Mem
  UART_Command : Mem
  g_uart_write_index : Nat
  bIsEncrypted : Bool

/-- How the marker scan (lines 448-471) ends: `noFrame r` is a `return false`
with `g_uart_write_index = r`; `found r n` is the `break` with
`g_uart_write_index = r` and `CommandLength = n`. -/
inductive Scan where
  | noFrame (r : Nat)
  | found (r CommandLength : Nat)
  deriving DecidableEq, Repr

/-- The inner loop, line 453:
`while (g_uart_write_index != DmaLength && UART_DMA_Buffer[g_uart_write_index] != 0xAB)`. -/
def skipLoop (cap : Nat) (buf : Mem) (DmaLength : Nat) : Nat → Nat → Option Nat
  | 0, _ => none
  | fuel + 1, r =>
    if r ≠ DmaLength ∧ buf r ≠ 0xAB then
      skipLoop cap buf DmaLength fuel (DMA_INDEX cap r 1)
    else some r

/-- The outer loop `while (1)`, lines 448-471. -/
def scanLoop (cap : Nat) (buf : Mem) (DmaLength : Nat) : Nat → Nat → Option Scan
  | 0, _ => none
  | fuel + 1, r =>
    if r = DmaLength then some (Scan.noFrame r)
    else
      match skipLoop cap buf DmaLength cap r with
      | none => none
      | some r1 =>
        if r1 = DmaLength then some (Scan.noFrame r1)
        else
          let CommandLength :=
            if r1 < DmaLength then DmaLength - r1 else (DmaLength + cap) - r1
          if CommandLength < 8 then some (Scan.noFrame r1)
          else if buf (DMA_INDEX cap r1 1) = 0xCD then some (Scan.found r1 CommandLength)
          else scanLoop cap buf DmaLength fuel (DMA_INDEX cap r1 1)

/-- Lines 494-501: the copy of the span `Index .. TailIndex` of the ring into
`UART_Command.Buffer` (256 bytes, line 148); `none` when the copy would not
fit the destination. -/
def copyOut (cap : Nat) (buf cmd : Mem) (Index TailIndex : Nat) : Option Mem :=
  if TailIndex < Index then
    let ChunkSize := cap - Index
    if ChunkSize + TailIndex ≤ 256 then
      some (memmove (memmove cmd 0 buf Index ChunkSize) ChunkSize buf 0 TailIndex)
    else none
  else
    if TailIndex - Index ≤ 256 then some (memmove cmd 0 buf Index (TailIndex - Index))
    else none

/-- Lines 503-510: zeroing of the consumed span `r .. TailIndex` of the ring. -/
def zeroConsumed (cap : Nat) (buf : Mem) (r TailIndex : Nat) : Mem :=
  if TailIndex < r then memset (memset buf r 0 (cap - r)) 0 0 TailIndex
  else memset buf r 0 (TailIndex - r)

/-- Lines 514-518: the codec mode after looking at `UART_Command.Header.ID`. -/
def toggle (bIsEncrypted : Bool) (ID : Nat) : Bool :=
  let e := if ID = 0x0514 then false else bIsEncrypted
  if ID = 0x6902 then true else e

/-- Lines 473-529 of `UART_IsCommandAvailable`: everything after the scan has
left the loop by `break`, with `g_uart_write_index` on the marker. -/
def extract (cap : Nat) (CRC_Calculate : List Nat → Nat) (DmaLength : Nat)
    (st : UartState) (CommandLength : Nat) : Option (UartState × Bool) :=
  let buf := st.UART_DMA_Buffer
  let r := st.g_uart_write_index
  let Index := DMA_INDEX cap r 2
  let Size := le16 (buf Index) (buf (DMA_INDEX cap Index 1))
  if Size + 8 > cap then
    some ({ st with g_uart_write_index := DmaLength }, false)
  else if CommandLength < Size + 8 then
    some (st, false)
  else
    let Index := DMA_INDEX cap Index 2
    let TailIndex := DMA_INDEX cap Index (Size + 2)
    if buf TailIndex ≠ 0xDC ∨ buf (DMA_INDEX cap TailIndex 1) ≠ 0xBA then
      some ({ st with g_uart_write_index := DmaLength }, false)
    else
      match copyOut cap buf st.UART_Command Index TailIndex with
      | none => none
      | some cmd =>
        let TailIndex := DMA_INDEX cap TailIndex 2
        let buf := zeroConsumed cap buf r TailIndex
        let enc := toggle st.bIsEncrypted (le16 (cmd 0) (cmd 1))
        let cmd := if enc then xorLoop cmd (Size + 2) else cmd
        let CRC := le16 (cmd Size) (cmd (Size + 1))
        some ({ UART_DMA_Buffer := buf, UART_Command := cmd,
                g_uart_write_index := TailIndex, bIsEncrypted := enc },
              if CRC_Calculate (bytes cmd Size) ≠ CRC then false else true)

/-- `UART_IsCommandAvailable()` (uart.c, line 439).  `DmaLength` is the value
`DMA_CH0->ST & 0xFFF` read at entry. -/
def UART_IsCommandAvailable (cap : Nat) (CRC_Calculate : List Nat → Nat) (DmaLength : Nat)
    (st : UartState) : Option (UartState × Bool) :=
  match scanLoop cap st.UART_DMA_Buffer DmaLength cap st.g_uart_write_index with
  | none => none
  | some (Scan.noFrame r) => some ({ st with g_uart_write_index := r }, false)
  | some (Scan.found r CommandLength) =>
    extract cap CRC_Calculate DmaLength { st with g_uart_write_index := r } CommandLength

/-- The number of bytes pending from cursor `p` up to the write cursor `w`,
as lines 459-462 compute it. -/
def pending (cap p w : Nat) : Nat := if p < w then w - p else (w + cap) - p

/-- The declared payload length of a frame whose marker is at `p`: the bytes at
`p + 2` and `p + 3` (mod `cap`) read as line 474 does. -/
def declaredSize (cap : Nat) (buf : Mem) (p : Nat) : Nat :=
  le16 (buf ((p + 2) % cap)) (buf ((p + 3) % cap))

/-- Closed form of the copy of lines 494-501: the `n` ring bytes that follow
the 4-byte frame header at `p`, laid over the old working buffer. -/
def payloadCopy (cap : Nat) (ring cmd : Mem) (p n : Nat) : Mem :=
  fun i => if i < n then ring ((p + 4 + i) % cap) else cmd i

/-- Closed form of what lines 494-529 leave behind for a complete frame with
a good end marker whose start marker is under the cursor of `st`. -/
def completeResult (cap : Nat) (CRC_Calculate : List Nat → Nat) (st : UartState) :
    UartState × Bool :=
  let p := st.g_uart_write_index
  let Size := declaredSize cap st.UART_DMA_Buffer p
  let cmd0 := payloadCopy cap st.UART_DMA_Buffer st.UART_Command p (Size + 2)
  let enc := toggle st.bIsEncrypted (le16 (cmd0 0) (cmd0 1))
  let cmd := if enc then xorLoop cmd0 (Size + 2) else cmd0
  ({ UART_DMA_Buffer := zeroConsumed cap st.UART_DMA_Buffer p ((p + Size + 8) % cap),
     UART_Command := cmd,
     g_uart_write_index := (p + Size + 8) % cap,
     bIsEncrypted := enc },
   if CRC_Calculate (bytes cmd Size) ≠ le16 (cmd Size) (cmd (Size + 1)) then false else true)

/-- The value of `g_uart_write_index` when the scan ends. -/
def Scan.cursor : Scan → Nat
  | Scan.noFrame r => r
  | Scan.found r _ => r

/-! ## Device-lock authenticator -/

/-- The external `AES_Encrypt(pKey, pIv, pIn, pOut, bIsFirstBlock)` of
`driver/aes.h`, as a function of key, IV, input block and flag giving the
output block.  A block is an array of four `uint32_t` words. -/
abbrev AES := Mem → Mem → Mem → Bool → Mem

/-- `IsBadChallenge(pKey, pIn, pResponse)` (uart.c, line 210): the IV is
zeroed, `AES_Encrypt(pKey, IV, pIn, IV, true)` overwrites it, and the four
words are compared with the response, returning true at the first mismatch. -/
def IsBadChallenge (AES_Encrypt : AES) (pKey pIn pResponse : Mem) : Bool :=
  let IV : Mem := fun _ => 0
  let IV := AES_Encrypt pKey IV pIn true
  (List.range 4).any (fun i => IV i != pResponse i)

/-- Build-time configuration read by the handlers: whether `ENABLE_FMRADIO` is
defined, and the reload constants of the two countdown timers. -/
structure Build where
  ENABLE_FMRADIO : Bool
  fm_radio_countdown_500ms : Nat
  serial_config_count_down_500ms : Nat

/-- The globals the command handlers read and write.  `g_try_count` is
declared outside the shown sources; it is kept as a natural number, the
handlers keeping it within 0..3. -/
structure Session where
  Timestamp : Nat
  g_has_custom_aes_key : Bool
  g_is_locked : Bool
  g_is_in_lock_screen : Bool
  g_try_count : Nat
  g_custom_aes_key : Mem
  g_default_aes_key : Mem
  g_challenge : Mem
  g_fm_radio_count_down_500ms : Nat
  g_serial_config_count_down_500ms : Nat

/-- The fields of `REPLY_052D_t` that `CMD_052D` sets before `SendReply`. -/
structure REPLY_052D_t where
  ID : Nat
  Size : Nat
  bIsLocked : Bool

/-- What `CMD_052D` leaves: the globals, the `Response` field of the command
buffer (the handler writes to it), and the reply it hands to `SendReply`. -/
structure Out_052D where
  session : Session
  Response : Mem
  Reply : REPLY_052D_t

/-- `CMD_052D(pBuffer)` (uart.c, line 357).  `pCmd_Response` is the `Response`
field of the received command.  `response` is the local array
`uint32_t response[4]` of line 361, which the function never initialises: its
content at entry is an input of the model.  Lines 374-375 and 380-381 pass
that local array to `IsBadChallenge` and then copy it over `pCmd->Response`. -/
def CMD_052D (b : Build) (AES_Encrypt : AES) (s : Session) (pCmd_Response response : Mem) :
    Out_052D :=
  let fm := if b.ENABLE_FMRADIO then b.fm_radio_countdown_500ms
            else s.g_fm_radio_count_down_500ms
  let l0 := s.g_has_custom_aes_key
  let l1 := if !l0 then IsBadChallenge AES_Encrypt s.g_custom_aes_key s.g_challenge response
            else l0
  let R1 := if !l0 then memmove pCmd_Response 0 response 0 4 else pCmd_Response
  let l2 := if !l1 then IsBadChallenge AES_Encrypt s.g_default_aes_key s.g_challenge response
            else l1
  let R2 := if !l1 then memmove R1 0 response 0 4 else R1
  let t1 := if !l1 then (if l2 then s.g_try_count + 1 else s.g_try_count) else s.g_try_count
  let t2 := if t1 < 3 then (if !l2 then 0 else t1) else 3
  let l3 := if t1 < 3 then l2 else true
  { session := { s with g_fm_radio_count_down_500ms := fm, g_try_count := t2,
                        g_is_locked := l3 },
    Response := R2,
    Reply := { ID := 0x052E, Size := 4, bIsLocked := l3 } }

/-- A run of consecutive `CMD_052D` commands, each given as the pair of its
`Response` field and the content of the handler's local array: the final
globals and the `bIsLocked` flag of each reply, in order. -/
def lockRun (b : Build) (AES_Encrypt : AES) : Session → List (Mem × Mem) → Session × List Bool
  | s, [] => (s, [])
  | s, c :: cs =>
    let o := CMD_052D b AES_Encrypt s c.1 c.2
    let r := lockRun b AES_Encrypt o.session cs
    (r.1, o.Reply.bIsLocked :: r.2)

/-! ## Memory read and write handlers -/

/-- A packed little-endian `uint32_t` field at byte offset `i` of a buffer. -/
def le32 (m : Mem) (i : Nat) : Nat :=
  (m i + 256 * m (i + 1) + 65536 * m (i + 2) + 16777216 * m (i + 3)) % 4294967296

/-- Modelled from the spec: `EEPROM_ReadBuffer(Address, pBuffer, Size)` of
`driver/eeprom.h` is missing from the shown sources; the spec treats it as the
service "read N bytes at offset O in persistent storage".  Byte `k < Size` of
the destination, which starts at index `off` of `pBuffer`, becomes storage
byte `Address + k`. -/
def EEPROM_ReadBuffer (eeprom : Mem) (Address : Nat) (pBuffer : Mem) (off Size : Nat) : Mem :=
  memmove pBuffer off eeprom Address Size

/-- Modelled from the spec: `EEPROM_WriteBuffer(Address, pBuffer)` of
`driver/eeprom.h` is missing from the shown sources; the spec treats it as the
service "write N bytes at offset O in persistent storage", and the handler
uses it for chunks of 8 bytes.  Storage byte `Address + k`, `k < 8`, becomes
byte `off + k` of `pBuffer`. -/
def EEPROM_WriteBuffer (eeprom : Mem) (Address : Nat) (pBuffer : Mem) (off : Nat) : Mem :=
  memmove eeprom Address pBuffer off 8

/-- The calls a handler makes to its external collaborators, in order:
`EEPROM_ReadBuffer(Address, _, Size)`, `EEPROM_WriteBuffer(Address, data)` with
the 8 bytes handed over, `BOARD_EEPROM_Init()`, and `SendReply` with the bytes
it passes to `UART_Send`. -/
inductive Event where
  | eepromRead (Address Size : Nat)
  | eepromWrite (Address : Nat) (data : List Nat)
  | eepromInit
  | reply (wire : List Nat)
  deriving DecidableEq, Repr

/-- The state a handler works on: the globals, the codec mode of uart.c and
the content of persistent storage. -/
structure Device where
  session : Session
  bIsEncrypted : Bool
  eeprom : Mem

/-- What a handler leaves: the state and the calls it made. -/
structure Handled where
  device : Device
  events : List Event

/-- Lines 260-264 and 291-297: the countdown reloads both handlers perform. -/
def reloadCountdowns (b : Build) (s : Session) : Session :=
  { s with
    g_serial_config_count_down_500ms := b.serial_config_count_down_500ms,
    g_fm_radio_count_down_500ms :=
      if b.ENABLE_FMRADIO then b.fm_radio_countdown_500ms else s.g_fm_radio_count_down_500ms }

/-- The local `Reply` of `CMD_051B` after lines 266-270: 136 zeroed bytes with
the header and the echoed offset and size set.  `stack` is the memory from the
address of `Reply` on as it is at entry; its bytes from 136 on lie behind the
structure and are not touched by the `memset`. -/
def reply051B (stack : Mem) (Offset Size : Nat) : Mem :=
  let Reply := memset stack 0 0 136
  let Reply := store (store Reply 0 0x1C) 1 0x05
  let Reply := store (store Reply 2 ((Size + 4) % 256)) 3 ((Size + 4) / 256 % 256)
  let Reply := store (store Reply 4 (Offset % 256)) 5 (Offset / 256 % 256)
  store Reply 6 Size

/-- `CMD_051B(pBuffer)` (uart.c, line 251).  The command is read from the
working buffer through the packed `CMD_051B_t`: `Offset` at bytes 4-5, `Size`
at byte 6, `Timestamp` at bytes 8-11.  The handler puts no bound on `Size`
(0..255): `EEPROM_ReadBuffer` and `SendReply` are given `Size` and `Size + 8`
as they are, and for `Size > 128` they run past the 136-byte structure into
the memory behind it (`stack`). -/
def CMD_051B (b : Build) (d : Device) (pBuffer stack : Mem) : Handled :=
  let Offset := le16 (pBuffer 4) (pBuffer 5)
  let Size := pBuffer 6 % 256
  if le32 pBuffer 8 ≠ d.session.Timestamp then { device := d, events := [] }
  else
    let s := reloadCountdowns b d.session
    let Reply := reply051B stack Offset Size
    let bLocked := if s.g_has_custom_aes_key then s.g_is_locked else false
    let Reply := if !bLocked then EEPROM_ReadBuffer d.eeprom Offset Reply 8 Size else Reply
    let ev := if !bLocked then [Event.eepromRead Offset Size] else []
    { device := { d with session := s },
      events := ev ++ [Event.reply (SendReply d.bIsEncrypted Reply (Size + 8)).wire] }

/-- The loop state of `CMD_051D`: storage, `bReloadEeprom`, calls made so far. -/
structure WriteState where
  eeprom : Mem
  bReloadEeprom : Bool
  events : List Event

/-- The 16-bit address of chunk `i`, line 310:
`const uint16_t Offset = pCmd->Offset + (i * 8U)`. -/
def chunkAddress (cmdOffset i : Nat) : Nat := (cmdOffset + i * 8) % 65536

/-- One iteration of the loop of lines 308-318.  The source pointer of line
317 is `(uint8_t *)&pCmd + (i * 8)`: the address of the local pointer variable
`pCmd`, not of the command; `atPCmd` is the memory from that address on. -/
def writeChunk (s : Session) (bAllowPassword : Bool) (cmdOffset : Nat) (atPCmd : Mem)
    (i : Nat) (w : WriteState) : WriteState :=
  let Offset := chunkAddress cmdOffset i
  let reload :=
    if 0x0F30 ≤ Offset ∧ Offset < 0x0F40 then
      (if !s.g_is_locked then true else w.bReloadEeprom)
    else w.bReloadEeprom
  if (Offset < 0x0E98 ∨ Offset ≥ 0x0EA0) ∨ s.g_is_in_lock_screen = false ∨ bAllowPassword = true then
    { eeprom := EEPROM_WriteBuffer w.eeprom Offset atPCmd (i * 8),
      bReloadEeprom := reload,
      events := w.events ++
        [Event.eepromWrite Offset ((List.range 8).map (fun k => atPCmd (i * 8 + k)))] }
  else { w with bReloadEeprom := reload }

/-- The loop `for (i = 0; i < (pCmd->Size / 8); i++)`: the state after `n`
iterations. -/
def writeLoop (s : Session) (bAllowPassword : Bool) (cmdOffset : Nat) (atPCmd : Mem)
    (w0 : WriteState) : Nat → WriteState
  | 0 => w0
  | n + 1 => writeChunk s bAllowPassword cmdOffset atPCmd n
      (writeLoop s bAllowPassword cmdOffset atPCmd w0 n)

/-- `CMD_051D(pBuffer)` (uart.c, line 281).  The command is read through the
packed `CMD_051D_t`: `Offset` at bytes 4-5, `Size` at byte 6, `bAllowPassword`
at byte 7, `Timestamp` at bytes 8-11.  `BOARD_EEPROM_Init` (board.c, outside
the shown sources) reloads globals from storage; it cannot reach the static
`Timestamp` of uart.c. -/
def CMD_051D (b : Build) (BOARD_EEPROM_Init : Session → Mem → Session) (d : Device)
    (pBuffer atPCmd : Mem) : Handled :=
  let Offset := le16 (pBuffer 4) (pBuffer 5)
  let Size := pBuffer 6 % 256
  let bAllowPassword := decide (pBuffer 7 % 256 ≠ 0)
  if le32 pBuffer 8 ≠ d.session.Timestamp then { device := d, events := [] }
  else
    let s := reloadCountdowns b d.session
    let Reply : Mem := memOf [0x1E, 0x05, 0x02, 0x00, Offset % 256, Offset / 256 % 256]
    let bIsLocked := if s.g_has_custom_aes_key then s.g_is_locked else s.g_has_custom_aes_key
    let w0 : WriteState := { eeprom := d.eeprom, bReloadEeprom := false, events := [] }
    let w := if !bIsLocked then writeLoop s bAllowPassword Offset atPCmd w0 (Size / 8) else w0
    let s1 := if w.bReloadEeprom then
        { BOARD_EEPROM_Init s w.eeprom with Timestamp := s.Timestamp } else s
    let ev := if w.bReloadEeprom then w.events ++ [Event.eepromInit] else w.events
    { device := { session := s1, bIsEncrypted := d.bIsEncrypted, eeprom := w.eeprom },
      events := ev ++ [Event.reply (SendReply d.bIsEncrypted Reply 6).wire] }

/-! ## Sample data for worked instances -/

/-- A sample block function standing in for the parameter `AES_Encrypt` in
worked instances: word-wise XOR of key, IV and input. -/
def sampleAes : AES := fun key iv data _ i => if i < 4 then key i ^^^ iv i ^^^ data i else 0

/-- Sample build: FM radio enabled. -/
def sampleBuild : Build :=
  { ENABLE_FMRADIO := true, fm_radio_countdown_500ms := 4, serial_config_count_down_500ms := 6 }

/-- Sample globals: no custom key (the key array is all ones), unlocked,
no failed attempt so far. -/
def sampleSession : Session :=
  { Timestamp := 0, g_has_custom_aes_key := false, g_is_locked := false,
    g_is_in_lock_screen := false, g_try_count := 0,
    g_custom_aes_key := memOf [0xFFFFFFFF, 0xFFFFFFFF, 0xFFFFFFFF, 0xFFFFFFFF],
    g_default_aes_key := memOf [0x4AA5CC60, 0x0312CC5F, 0xFFD2DABB, 0x6BBA7F92],
    g_challenge := memOf [1, 2, 3, 4],
    g_fm_radio_count_down_500ms := 0, g_serial_config_count_down_500ms := 0 }

/-- A sample 16-bit checksum standing in for the parameter `CRC_Calculate` in
worked instances (the real one is the CRC unit behind `driver/crc.h`). -/
def sampleCrc (l : List Nat) : Nat := l.foldl (fun a b => (a * 31 + b) % 65536) 0

/-- A 16-byte ring: two stray bytes at 10 and 11, then the 10-byte frame
`AB CD 02 00 | 31 69 | AA E2 | DC BA` from 12 on, wrapping to 0..5.  The body
is the obfuscated form of payload `27 05` with checksum `BE 04`. -/
def sampleRing : Mem :=
  memOf [0x31, 0x69, 0xAA, 0xE2, 0xDC, 0xBA, 0, 0, 0, 0, 0x00, 0x11, 0xAB, 0xCD, 0x02, 0x00]

/-- The state before the call in the worked instances: cursor on the first
stray byte, encrypted mode, an all-zero working buffer. -/
def sampleState : UartState :=
  { UART_DMA_Buffer := sampleRing, UART_Command := fun _ => 0,
    g_uart_write_index := 10, bIsEncrypted := true }

/-- Sample globals with a custom key configured. -/
def sampleCustomSession : Session :=
  { sampleSession with g_has_custom_aes_key := true,
                       g_custom_aes_key := memOf [0x11111111, 0x22222222, 0x33333333, 0x44444444] }

/-- Sample globals in which the custom-key array holds the same words as the
default key (no custom key flagged), with two failed attempts so far. -/
def sampleTwinSession : Session :=
  { sampleSession with g_custom_aes_key := sampleSession.g_default_aes_key, g_try_count := 2 }

/-- The genuine response under a key: `AES_Encrypt(key, zero IV, challenge)`. -/
def genuine (AES_Encrypt : AES) (key challenge : Mem) : Mem :=
  AES_Encrypt key (fun _ => 0) challenge true

/-- The ring of `sampleRing` with the first end-marker byte (index 4) altered. -/
def sampleRingBadTail : Mem :=
  memOf [0x31, 0x69, 0xAA, 0xE2, 0x00, 0xBA, 0, 0, 0, 0, 0x00, 0x11, 0xAB, 0xCD, 0x02, 0x00]

/-- Sample device: the sample globals (session timestamp 0), plain codec mode,
storage byte `a` holding `a % 251`. -/
def sampleDevice : Device :=
  { session := sampleSession, bIsEncrypted := false, eeprom := fun a => a % 251 }

/-- A read command `0x051B` for 4 bytes at offset `0x0010`, timestamp 0. -/
def sampleRead : Mem := memOf [0x1B, 0x05, 0x08, 0x00, 0x10, 0x00, 4, 0, 0, 0, 0, 0]

/-- A write command `0x051D` for one 8-byte chunk at offset `0x0E94`,
`bAllowPassword` clear, timestamp 0, followed by eight data bytes. -/
def sampleWrite : Mem :=
  memOf [0x1D, 0x05, 0x10, 0x00, 0x94, 0x0E, 8, 0, 0, 0, 0, 0,
         0xA1, 0xA2, 0xA3, 0xA4, 0xA5, 0xA6, 0xA7, 0xA8]

/-- A write command `0x051D` for two 8-byte chunks at offset `0x0F30`, both in
the calibration window, timestamp 0. -/
def sampleCalWrite : Mem := memOf [0x1D, 0x05, 0x18, 0x00, 0x30, 0x0F, 16, 0, 0, 0, 0, 0]

/-- Sample device flagged locked with no custom key configured. -/
def sampleLockedNoKey : Device :=
  { sampleDevice with session := { sampleSession with g_is_locked := true } }

/-- Sample device with a custom key configured and locked. -/
def sampleLockedDevice : Device :=
  { sampleDevice with session := { sampleCustomSession with g_is_locked := true } }

/-- Sample device showing its lock screen (no custom key, unlocked). -/
def sampleLockScreen : Device :=
  { sampleDevice with session := { sampleSession with g_is_in_lock_screen := true } }

/-- A sample `BOARD_EEPROM_Init`: it reloads nothing. -/
def sampleBoardInit : Session → Mem → Session := fun s _ => s

/-- A state holding a plain-text handshake frame (identifier `0x0514`, payload
`14 05`) at the start of a 16-byte ring, the codec in encrypted mode. -/
def sampleHandshakeState : UartState :=
  { UART_DMA_Buffer := memOf [0xAB, 0xCD, 0x02, 0x00, 0x14, 0x05, 0x00, 0x00, 0xDC, 0xBA],
    UART_Command := fun _ => 0, g_uart_write_index := 0, bIsEncrypted := true }

/-- The wire image of a frame (spec section 6, and what `SendReply` emits):
start marker, little-endian payload length, payload, two checksum bytes, end
marker. -/
def frame (payload : List Nat) (crcLo crcHi : Nat) : List Nat :=
  [0xAB, 0xCD, payload.length % 256, payload.length / 256 % 256] ++ payload ++
    [crcLo, crcHi, 0xDC, 0xBA]

/-- A ring of capacity `cap` holding the bytes `f` at positions `(s + i) % cap`
and the bytes of `bg` everywhere else. -/
def placed (cap : Nat) (bg : Mem) (s : Nat) (f : List Nat) : Mem :=
  fun j => if (j + cap - s) % cap < f.length then f.getD ((j + cap - s) % cap) 0 else bg j

/-- What extraction of `frame payload crcLo crcHi` must leave, written from the
frame alone: the working buffer, the codec mode, and the returned flag, given
the working buffer `cmd` and the mode `enc` before the call. -/
def frameResult (CRC_Calculate : List Nat → Nat) (payload : List Nat) (crcLo crcHi : Nat)
    (cmd : Mem) (enc : Bool) : Mem × Bool × Bool :=
  let f := frame payload crcLo crcHi
  let n := payload.length
  let cmd0 : Mem := fun i => if i < n + 2 then f.getD (4 + i) 0 else cmd i
  let e := toggle enc (le16 (cmd0 0) (cmd0 1))
  let c := if e then xorLoop cmd0 (n + 2) else cmd0
  (c, e, if CRC_Calculate (bytes c n) ≠ le16 (c n) (c (n + 1)) then false else true)

/-- The 8 bytes of a received `0x051D` command that belong to chunk `i`: the
bytes at offset `12 + 8 i` of the working buffer, behind the 12-byte
`CMD_051D_t` header. -/
def commandChunk (pBuffer : Mem) (i : Nat) : List Nat :=
  (List.range 8).map (fun k => pBuffer (12 + 8 * i + k))

/-- A write command `0x051D` for one 8-byte chunk at offset `0x0010`,
timestamp 0, carrying the data bytes `A1 .. A8`. -/
def sampleDataWrite : Mem :=
  memOf [0x1D, 0x05, 0x10, 0x00, 0x10, 0x00, 8, 0, 0, 0, 0, 0,
         0xA1, 0xA2, 0xA3, 0xA4, 0xA5, 0xA6, 0xA7, 0xA8]

/-- Sample memory at the address of the local `pCmd` of `CMD_051D`: the four
bytes of the pointer itself (the working buffer at `0x20000400`), then four
bytes of whatever follows on the stack. -/
def samplePCmdMemory : Mem := memOf [0x00, 0x04, 0x00, 0x20, 0x5A, 0x5A, 0x5A, 0x5A]

/-- A read command `0x051B` asking for 255 bytes at offset `0x0010`,
timestamp 0. -/
def sampleBigRead : Mem := memOf [0x1B, 0x05, 0x08, 0x00, 0x10, 0x00, 255, 0, 0, 0, 0, 0]

/-- The payload of a plain-text frame with `Size = 8`; its `sampleCrc` is
`0xA11C`. -/
def sampleFullPayload : List Nat := [0x27, 0x05, 0x04, 0x00, 0x11, 0x22, 0x33, 0x44]

/-- A 16-byte ring filled by one 16-byte frame (`Size + 8 = 16`) that starts
at index 4 and wraps: `AB CD 08 00`, the payload `sampleFullPayload`, the
checksum bytes `1C A1`, and the end marker `DC BA` at indices 2 and 3. -/
def sampleFullRing : Mem :=
  memOf [0x1C, 0xA1, 0xDC, 0xBA, 0xAB, 0xCD, 0x08, 0x00,
         0x27, 0x05, 0x04, 0x00, 0x11, 0x22, 0x33, 0x44]

/-- The ring of `sampleFullRing` before the last frame byte (index 3) has
arrived. -/
def samplePartRing : Mem :=
  memOf [0x1C, 0xA1, 0xDC, 0x00, 0xAB, 0xCD, 0x08, 0x00,
         0x27, 0x05, 0x04, 0x00, 0x11, 0x22, 0x33, 0x44]

/-- The extractor state with the read cursor on the marker of
`sampleFullRing`, plain codec mode, an all-zero working buffer. -/
def sampleFullState : UartState :=
  { UART_DMA_Buffer := sampleFullRing, UART_Command := fun _ => 0,
    g_uart_write_index := 4, bIsEncrypted := false }

/-! ## Basic facts -/

theorem store_apply (m : Mem) (i v j : Nat) :
    store m i v j = if j = i then v else m j := rfl

theorem memmove_apply (dst : Mem) (d : Nat) (src : Mem) (s n j : Nat) :
    memmove dst d src s n j = if d ≤ j ∧ j < d + n then src (s + (j - d)) else dst j := rfl

theorem memset_apply (dst : Mem) (d v n j : Nat) :
    memset dst d v n j = if d ≤ j ∧ j < d + n then v else dst j := rfl

theorem xorLoop_apply (buf : Mem) (n i : Nat) :
    xorLoop buf n i = if i < n then buf i ^^^ Obfuscation.getD (i % 16) 0 else buf i := by
  induction n with
  | zero => simp [xorLoop]
  | succ k ih =>
    simp only [xorLoop, store_apply]
    by_cases hik : i = k
    · subst hik
      simp [ih]
    · rw [if_neg hik, ih]
      by_cases hlt : i < k
      · have h1 : i < k + 1 := by omega
        simp [hlt, h1]
      · have h1 : ¬ i < k + 1 := by omega
        simp [hlt, h1]

theorem xorLoop_xorLoop (buf : Mem) (n : Nat) : xorLoop (xorLoop buf n) n = buf := by
  funext i
  rw [xorLoop_apply, xorLoop_apply]
  by_cases h : i < n
  · simp only [h, if_true]
    rw [Nat.xor_assoc, Nat.xor_self, Nat.xor_zero]
  · simp [h]

theorem mod_wrap {cap x : Nat} (h1 : cap ≤ x) (h2 : x < cap + cap) : x % cap = x - cap := by
  rw [Nat.mod_eq_sub_mod h1]
  exact Nat.mod_eq_of_lt (by omega)

theorem DMA_INDEX_lt {cap : Nat} (h : 0 < cap) (x y : Nat) : DMA_INDEX cap x y < cap :=
  Nat.mod_lt _ h

theorem DMA_INDEX_DMA_INDEX (cap x y z : Nat) :
    DMA_INDEX cap (DMA_INDEX cap x y) z = (x + (y + z)) % cap := by
  unfold DMA_INDEX
  rw [Nat.mod_add_mod, Nat.add_assoc]

theorem pending_lt {cap p w : Nat} (hp : p < cap) (hw : w < cap) (hne : p ≠ w) :
    pending cap p w < cap := by
  unfold pending
  split <;> omega

/-! ## The marker scan -/

theorem skipLoop_spec (cap : Nat) (buf : Mem) (w : Nat) :
    ∀ (fuel r r1 : Nat), r < cap → skipLoop cap buf w fuel r = some r1 →
      r1 < cap ∧ (r1 = w ∨ buf r1 = 0xAB) := by
  intro fuel
  induction fuel with
  | zero => intro r r1 _ h; simp [skipLoop] at h
  | succ k ih =>
    intro r r1 hr h
    simp only [skipLoop] at h
    split at h
    · exact ih _ _ (DMA_INDEX_lt (by omega) _ _) h
    · rename_i hc
      simp only [Option.some.injEq] at h
      subst h
      refine ⟨hr, ?_⟩
      by_cases hw : r = w
      · exact Or.inl hw
      · right
        by_contra hb
        exact hc ⟨hw, hb⟩

theorem scanLoop_found (cap : Nat) (buf : Mem) (w : Nat) :
    ∀ (fuel r p L : Nat), r < cap → scanLoop cap buf w fuel r = some (Scan.found p L) →
      p < cap ∧ p ≠ w ∧ buf p = 0xAB ∧ buf ((p + 1) % cap) = 0xCD ∧
        L = pending cap p w ∧ 8 ≤ L := by
  intro fuel
  induction fuel with
  | zero => intro r p L _ h; simp [scanLoop] at h
  | succ k ih =>
    intro r p L hr h
    simp only [scanLoop] at h
    by_cases h0 : r = w
    · simp [h0] at h
    · rw [if_neg h0] at h
      cases hskip : skipLoop cap buf w cap r with
      | none => rw [hskip] at h; simp at h
      | some r1 =>
        rw [hskip] at h
        simp only [] at h
        obtain ⟨hr1, hab⟩ := skipLoop_spec cap buf w _ _ _ hr hskip
        by_cases hne : r1 = w
        · simp [hne] at h
        · rw [if_neg hne] at h
          by_cases hlen : (if r1 < w then w - r1 else w + cap - r1) < 8
          · rw [if_pos hlen] at h
            simp at h
          · rw [if_neg hlen] at h
            by_cases hcd : buf (DMA_INDEX cap r1 1) = 0xCD
            · rw [if_pos hcd] at h
              simp only [Option.some.injEq, Scan.found.injEq] at h
              obtain ⟨h1, h2⟩ := h
              subst h1
              refine ⟨hr1, hne, ?_, hcd, ?_, ?_⟩
              · rcases hab with hab | hab
                · exact absurd hab hne
                · exact hab
              · rw [← h2]; rfl
              · rw [← h2]; omega
            · rw [if_neg hcd] at h
              exact ih _ _ _ (DMA_INDEX_lt (by omega) _ _) h

/-- A marker under the cursor with at least 8 bytes pending ends the scan at once. -/
theorem scanLoop_at_marker (cap : Nat) (buf : Mem) (w p : Nat)
    (hp : p ≠ w) (hcap : 0 < cap) (hab : buf p = 0xAB) (hcd : buf ((p + 1) % cap) = 0xCD)
    (h8 : 8 ≤ pending cap p w) :
    scanLoop cap buf w cap p = some (Scan.found p (pending cap p w)) := by
  obtain ⟨k, hk⟩ : ∃ k, cap = k + 1 := ⟨cap - 1, by omega⟩
  have hskip : skipLoop cap buf w cap p = some p := by
    rw [hk]
    simp [skipLoop, hab]
  have h8' : ¬ (pending cap p w < 8) := by omega
  unfold pending at h8'
  conv => lhs; rw [hk]
  simp only [scanLoop]
  rw [← hk, hskip]
  simp only [if_neg hp, if_neg h8']
  unfold DMA_INDEX
  simp [hcd, pending]

/-- A marker under the cursor with fewer than 8 bytes pending: the scan gives
up (line 464) and the cursor stays on the marker. -/
theorem scanLoop_short (cap : Nat) (buf : Mem) (w p : Nat)
    (hp : p ≠ w) (hcap : 0 < cap) (hab : buf p = 0xAB) (h8 : pending cap p w < 8) :
    scanLoop cap buf w cap p = some (Scan.noFrame p) := by
  obtain ⟨k, hk⟩ : ∃ k, cap = k + 1 := ⟨cap - 1, by omega⟩
  have hskip : skipLoop cap buf w cap p = some p := by
    rw [hk]
    simp [skipLoop, hab]
  unfold pending at h8
  conv => lhs; rw [hk]
  simp only [scanLoop]
  rw [← hk, hskip]
  simp only [if_neg hp, if_pos h8]

/-- The circular distance from cursor `r` forward to the write cursor `w`. -/
theorem dist_eq {cap r w : Nat} (hr : r < cap) (hw : w < cap) :
    (w + cap - r) % cap = if r ≤ w then w - r else w + cap - r := by
  by_cases h : r ≤ w
  · rw [if_pos h]
    have e : w + cap - r = w - r + cap := by omega
    rw [e, Nat.add_mod_right]
    exact Nat.mod_eq_of_lt (by omega)
  · rw [if_neg h]
    exact Nat.mod_eq_of_lt (by omega)

theorem dist_step {cap r w : Nat} (hr : r < cap) (hw : w < cap) (hne : r ≠ w) :
    (w + cap - DMA_INDEX cap r 1) % cap + 1 = (w + cap - r) % cap := by
  have hlt : DMA_INDEX cap r 1 < cap := DMA_INDEX_lt (by omega) _ _
  rw [dist_eq hlt hw, dist_eq hr hw]
  unfold DMA_INDEX
  by_cases h : r + 1 < cap
  · rw [Nat.mod_eq_of_lt h]
    split <;> split <;> omega
  · have e : r + 1 = cap := by omega
    rw [e, Nat.mod_self]
    split <;> split <;> omega

/-- With fuel above the distance to the write cursor the inner loop returns,
without moving the cursor past the write cursor. -/
theorem skipLoop_total (cap : Nat) (buf : Mem) (w : Nat) (hw : w < cap) :
    ∀ (fuel r : Nat), r < cap → (w + cap - r) % cap < fuel →
      ∃ r1, skipLoop cap buf w fuel r = some r1 ∧ r1 < cap ∧
        (w + cap - r1) % cap ≤ (w + cap - r) % cap := by
  intro fuel
  induction fuel with
  | zero => intro r _ h; omega
  | succ k ih =>
    intro r hr hd
    simp only [skipLoop]
    by_cases hc : r ≠ w ∧ buf r ≠ 0xAB
    · rw [if_pos hc]
      have hs := dist_step hr hw hc.1
      obtain ⟨r1, h1, h2, h3⟩ := ih (DMA_INDEX cap r 1) (DMA_INDEX_lt (by omega) _ _) (by omega)
      exact ⟨r1, h1, h2, by omega⟩
    · rw [if_neg hc]
      exact ⟨r, rfl, hr, Nat.le_refl _⟩

/-- With fuel above the distance to the write cursor the scan returns. -/
theorem scanLoop_total (cap : Nat) (buf : Mem) (w : Nat) (hw : w < cap) :
    ∀ (fuel r : Nat), r < cap → (w + cap - r) % cap < fuel →
      ∃ res, scanLoop cap buf w fuel r = some res := by
  intro fuel
  induction fuel with
  | zero => intro r _ h; omega
  | succ k ih =>
    intro r hr hd
    simp only [scanLoop]
    by_cases h0 : r = w
    · rw [if_pos h0]
      exact ⟨_, rfl⟩
    · rw [if_neg h0]
      obtain ⟨r1, h1, h2, h3⟩ :=
        skipLoop_total cap buf w hw cap r hr (Nat.mod_lt _ (by omega))
      rw [h1]
      simp only []
      by_cases hne : r1 = w
      · rw [if_pos hne]
        exact ⟨_, rfl⟩
      · rw [if_neg hne]
        by_cases hlen : (if r1 < w then w - r1 else w + cap - r1) < 8
        · rw [if_pos hlen]
          exact ⟨_, rfl⟩
        · rw [if_neg hlen]
          by_cases hcd : buf (DMA_INDEX cap r1 1) = 0xCD
          · rw [if_pos hcd]
            exact ⟨_, rfl⟩
          · rw [if_neg hcd]
            have hs := dist_step h2 hw hne
            exact ih _ (DMA_INDEX_lt (by omega) _ _) (by omega)

/-- The fuel `cap` that `UART_IsCommandAvailable` gives the scan is enough. -/
theorem scanLoop_returns (cap : Nat) (buf : Mem) (w r : Nat) (hr : r < cap) (hw : w < cap) :
    ∃ res, scanLoop cap buf w cap r = some res :=
  scanLoop_total cap buf w hw cap r hr (Nat.mod_lt _ (by omega))

/-! ## Extraction after the scan -/

theorem copyOut_eq (cap : Nat) (buf cmd : Mem) (Index n : Nat)
    (hI : Index < cap) (hn : n < cap) (hfit : n ≤ 256) :
    copyOut cap buf cmd Index ((Index + n) % cap) =
      some (fun i => if i < n then buf ((Index + i) % cap) else cmd i) := by
  unfold copyOut
  by_cases hwrap : Index + n < cap
  · rw [Nat.mod_eq_of_lt hwrap]
    have h1 : ¬ (Index + n < Index) := by omega
    have h2 : Index + n - Index = n := by omega
    rw [if_neg h1, h2, if_pos hfit]
    congr 1
    funext i
    rw [memmove_apply]
    by_cases hi : i < n
    · have h3 : (Index + i) % cap = Index + i := Nat.mod_eq_of_lt (by omega)
      simp [hi, h3]
    · simp [hi]
  · have hT : (Index + n) % cap = Index + n - cap := mod_wrap (by omega) (by omega)
    have h1 : Index + n - cap < Index := by omega
    have h2 : cap - Index + (Index + n - cap) ≤ 256 := by omega
    rw [hT, if_pos h1]
    simp only []
    rw [if_pos h2]
    congr 1
    funext i
    simp only [memmove_apply]
    by_cases hi : i < n
    · rw [if_pos hi]
      by_cases hc : i < cap - Index
      · have h3 : (Index + i) % cap = Index + i := Nat.mod_eq_of_lt (by omega)
        have h4 : ¬ (cap - Index ≤ i ∧ i < cap - Index + (Index + n - cap)) := by omega
        have h5 : 0 ≤ i ∧ i < 0 + (cap - Index) := by omega
        rw [if_neg h4, if_pos h5, h3]
        simp
      · have h3 : (Index + i) % cap = Index + i - cap := mod_wrap (by omega) (by omega)
        have h4 : cap - Index ≤ i ∧ i < cap - Index + (Index + n - cap) := by omega
        have h5 : 0 + (i - (cap - Index)) = Index + i - cap := by omega
        rw [if_pos h4, h3, h5]
    · have h4 : ¬ (cap - Index ≤ i ∧ i < cap - Index + (Index + n - cap)) := by omega
      have h5 : ¬ (0 ≤ i ∧ i < 0 + (cap - Index)) := by omega
      rw [if_neg hi, if_neg h4, if_neg h5]

theorem extract_size (cap : Nat) (st : UartState) :
    le16 (st.UART_DMA_Buffer (DMA_INDEX cap st.g_uart_write_index 2))
        (st.UART_DMA_Buffer (DMA_INDEX cap (DMA_INDEX cap st.g_uart_write_index 2) 1)) =
      declaredSize cap st.UART_DMA_Buffer st.g_uart_write_index := by
  rw [DMA_INDEX_DMA_INDEX]
  rfl

/-- Oversize length: everything pending is discarded. -/
theorem extract_oversize (cap : Nat) (crc : List Nat → Nat) (w : Nat) (st : UartState) (L : Nat)
    (h : cap < declaredSize cap st.UART_DMA_Buffer st.g_uart_write_index + 8) :
    extract cap crc w st L = some ({ st with g_uart_write_index := w }, false) := by
  unfold extract
  simp only [extract_size]
  rw [if_pos (by omega)]

/-- Incomplete frame: nothing changes. -/
theorem extract_incomplete (cap : Nat) (crc : List Nat → Nat) (w : Nat) (st : UartState) (L : Nat)
    (h1 : declaredSize cap st.UART_DMA_Buffer st.g_uart_write_index + 8 ≤ cap)
    (h2 : L < declaredSize cap st.UART_DMA_Buffer st.g_uart_write_index + 8) :
    extract cap crc w st L = some (st, false) := by
  unfold extract
  simp only [extract_size]
  rw [if_neg (by omega), if_pos h2]

/-- Complete frame, bad end marker: everything pending is discarded. -/
theorem extract_bad_tail (cap : Nat) (crc : List Nat → Nat) (w : Nat) (st : UartState) (L : Nat)
    (h1 : declaredSize cap st.UART_DMA_Buffer st.g_uart_write_index + 8 ≤ cap)
    (h2 : declaredSize cap st.UART_DMA_Buffer st.g_uart_write_index + 8 ≤ L)
    (h3 : ¬ (st.UART_DMA_Buffer ((st.g_uart_write_index + 4 +
              declaredSize cap st.UART_DMA_Buffer st.g_uart_write_index + 2) % cap) = 0xDC ∧
            st.UART_DMA_Buffer ((st.g_uart_write_index + 4 +
              declaredSize cap st.UART_DMA_Buffer st.g_uart_write_index + 3) % cap) = 0xBA)) :
    extract cap crc w st L = some ({ st with g_uart_write_index := w }, false) := by
  unfold extract
  simp only [extract_size]
  rw [if_neg (by omega), if_neg (by omega)]
  have e1 : DMA_INDEX cap (DMA_INDEX cap (DMA_INDEX cap st.g_uart_write_index 2) 2)
      (declaredSize cap st.UART_DMA_Buffer st.g_uart_write_index + 2) =
      (st.g_uart_write_index + 4 +
        declaredSize cap st.UART_DMA_Buffer st.g_uart_write_index + 2) % cap := by
    rw [DMA_INDEX_DMA_INDEX]
    unfold DMA_INDEX
    rw [Nat.mod_add_mod]
    congr 1
    omega
  have e2 : DMA_INDEX cap ((st.g_uart_write_index + 4 +
        declaredSize cap st.UART_DMA_Buffer st.g_uart_write_index + 2) % cap) 1 =
      (st.g_uart_write_index + 4 +
        declaredSize cap st.UART_DMA_Buffer st.g_uart_write_index + 3) % cap := by
    unfold DMA_INDEX
    rw [Nat.mod_add_mod]
  rw [e1, e2]
  have h4 : st.UART_DMA_Buffer ((st.g_uart_write_index + 4 +
              declaredSize cap st.UART_DMA_Buffer st.g_uart_write_index + 2) % cap) ≠ 0xDC ∨
            st.UART_DMA_Buffer ((st.g_uart_write_index + 4 +
              declaredSize cap st.UART_DMA_Buffer st.g_uart_write_index + 3) % cap) ≠ 0xBA := by
    by_contra hc
    push_neg at hc
    exact h3 hc
  rw [if_pos h4]

theorem index_nest (cap p n : Nat) :
    DMA_INDEX cap (DMA_INDEX cap (DMA_INDEX cap p 2) 2) n = (p + 4 + n) % cap := by
  rw [DMA_INDEX_DMA_INDEX]
  unfold DMA_INDEX
  rw [Nat.mod_add_mod]
  congr 1
  omega

theorem index_four (cap p : Nat) : DMA_INDEX cap (DMA_INDEX cap p 2) 2 = (p + 4) % cap :=
  DMA_INDEX_DMA_INDEX cap p 2 2

theorem copyOut_payload (cap : Nat) (buf cmd : Mem) (p S : Nat)
    (hcap : 0 < cap) (hn : S + 2 < cap) (hfit : S + 2 ≤ 256) :
    copyOut cap buf cmd ((p + 4) % cap) ((p + 4 + S + 2) % cap) =
      some (payloadCopy cap buf cmd p (S + 2)) := by
  have h := copyOut_eq cap buf cmd ((p + 4) % cap) (S + 2) (Nat.mod_lt _ hcap) hn hfit
  rw [Nat.mod_add_mod] at h
  have e : p + 4 + (S + 2) = p + 4 + S + 2 := by omega
  rw [e] at h
  rw [h]
  congr 1
  funext i
  unfold payloadCopy
  rw [Nat.mod_add_mod]

theorem index_mod (cap x y : Nat) : DMA_INDEX cap (x % cap) y = (x + y) % cap := by
  unfold DMA_INDEX
  rw [Nat.mod_add_mod]

/-- Complete frame with a good end marker: the closed form `completeResult`. -/
theorem extract_complete (cap : Nat) (crc : List Nat → Nat) (w : Nat) (st : UartState) (L : Nat)
    (hL : L < cap)
    (h2 : declaredSize cap st.UART_DMA_Buffer st.g_uart_write_index + 8 ≤ L)
    (hfit : declaredSize cap st.UART_DMA_Buffer st.g_uart_write_index + 2 ≤ 256)
    (h3 : st.UART_DMA_Buffer ((st.g_uart_write_index + 4 +
              declaredSize cap st.UART_DMA_Buffer st.g_uart_write_index + 2) % cap) = 0xDC ∧
          st.UART_DMA_Buffer ((st.g_uart_write_index + 4 +
              declaredSize cap st.UART_DMA_Buffer st.g_uart_write_index + 3) % cap) = 0xBA) :
    extract cap crc w st L = some (completeResult cap crc st) := by
  have hcap : 0 < cap := by omega
  unfold extract
  simp only [extract_size]
  rw [if_neg (by omega), if_neg (by omega)]
  simp only [index_nest, index_mod]
  have e1 : st.g_uart_write_index + 4 +
      (declaredSize cap st.UART_DMA_Buffer st.g_uart_write_index + 2) =
      st.g_uart_write_index + 4 +
        declaredSize cap st.UART_DMA_Buffer st.g_uart_write_index + 2 := by omega
  have e2 : st.g_uart_write_index + 4 +
      declaredSize cap st.UART_DMA_Buffer st.g_uart_write_index + 2 + 1 =
      st.g_uart_write_index + 4 +
        declaredSize cap st.UART_DMA_Buffer st.g_uart_write_index + 3 := by omega
  rw [e1, e2]
  have h4 : ¬ (st.UART_DMA_Buffer ((st.g_uart_write_index + 4 +
              declaredSize cap st.UART_DMA_Buffer st.g_uart_write_index + 2) % cap) ≠ 0xDC ∨
            st.UART_DMA_Buffer ((st.g_uart_write_index + 4 +
              declaredSize cap st.UART_DMA_Buffer st.g_uart_write_index + 3) % cap) ≠ 0xBA) := by
    rw [h3.1, h3.2]
    simp
  rw [if_neg h4, index_four,
    copyOut_payload cap _ _ _ _ hcap (by omega) hfit]
  have e3 : st.g_uart_write_index + 4 +
      declaredSize cap st.UART_DMA_Buffer st.g_uart_write_index + 2 + 2 =
      st.g_uart_write_index +
        declaredSize cap st.UART_DMA_Buffer st.g_uart_write_index + 8 := by omega
  simp only [e3]
  rfl

theorem UART_IsCommandAvailable_of_found (cap : Nat) (crc : List Nat → Nat) (w : Nat)
    (st : UartState) (p L : Nat)
    (hscan : scanLoop cap st.UART_DMA_Buffer w cap st.g_uart_write_index =
      some (Scan.found p L)) :
    UART_IsCommandAvailable cap crc w st =
      extract cap crc w { st with g_uart_write_index := p } L := by
  unfold UART_IsCommandAvailable
  rw [hscan]

theorem completeResult_spec (cap : Nat) (crc : List Nat → Nat) (st : UartState) :
    (completeResult cap crc st).1.bIsEncrypted =
        toggle st.bIsEncrypted
          (le16 (st.UART_DMA_Buffer ((st.g_uart_write_index + 4) % cap))
                (st.UART_DMA_Buffer ((st.g_uart_write_index + 5) % cap))) ∧
      (∀ i, i < declaredSize cap st.UART_DMA_Buffer st.g_uart_write_index + 2 →
        (completeResult cap crc st).1.UART_Command i =
          if (completeResult cap crc st).1.bIsEncrypted then
            st.UART_DMA_Buffer ((st.g_uart_write_index + 4 + i) % cap) ^^^
              Obfuscation.getD (i % 16) 0
          else st.UART_DMA_Buffer ((st.g_uart_write_index + 4 + i) % cap)) ∧
      ((completeResult cap crc st).2 = true ↔
        crc (bytes (completeResult cap crc st).1.UART_Command
              (declaredSize cap st.UART_DMA_Buffer st.g_uart_write_index)) =
          le16 ((completeResult cap crc st).1.UART_Command
                  (declaredSize cap st.UART_DMA_Buffer st.g_uart_write_index))
               ((completeResult cap crc st).1.UART_Command
                  (declaredSize cap st.UART_DMA_Buffer st.g_uart_write_index + 1))) ∧
      (completeResult cap crc st).1.g_uart_write_index =
        (st.g_uart_write_index +
          declaredSize cap st.UART_DMA_Buffer st.g_uart_write_index + 8) % cap := by
  refine ⟨?_, ?_, ?_, rfl⟩
  · simp [completeResult, payloadCopy]
  · intro i hi
    simp only [completeResult]
    split
    · rw [xorLoop_apply, if_pos hi]
      simp [payloadCopy, hi]
    · simp [payloadCopy, hi]
  · simp only [completeResult]
    split <;> simp_all

/-! ## Properties of the ring extractor -/

/-- What a call on a complete frame with a good end marker leaves, for reuse. -/
theorem UART_IsCommandAvailable_complete_frame_aux (cap : Nat) (crc : List Nat → Nat) (w : Nat)
    (st : UartState) (p L : Nat)
    (hr : st.g_uart_write_index < cap) (hw : w < cap)
    (hscan : scanLoop cap st.UART_DMA_Buffer w cap st.g_uart_write_index =
      some (Scan.found p L))
    (hlen : declaredSize cap st.UART_DMA_Buffer p + 8 ≤ pending cap p w)
    (hfit : declaredSize cap st.UART_DMA_Buffer p + 2 ≤ 256)
    (htail : st.UART_DMA_Buffer ((p + 4 + declaredSize cap st.UART_DMA_Buffer p + 2) % cap) = 0xDC ∧
      st.UART_DMA_Buffer ((p + 4 + declaredSize cap st.UART_DMA_Buffer p + 3) % cap) = 0xBA) :
    ∃ st' b, UART_IsCommandAvailable cap crc w st = some (st', b) ∧
      st'.bIsEncrypted =
        toggle st.bIsEncrypted
          (le16 (st.UART_DMA_Buffer ((p + 4) % cap)) (st.UART_DMA_Buffer ((p + 5) % cap))) ∧
      (∀ i, i < declaredSize cap st.UART_DMA_Buffer p + 2 →
        st'.UART_Command i =
          if st'.bIsEncrypted then
            st.UART_DMA_Buffer ((p + 4 + i) % cap) ^^^ Obfuscation.getD (i % 16) 0
          else st.UART_DMA_Buffer ((p + 4 + i) % cap)) ∧
      st'.g_uart_write_index = (p + declaredSize cap st.UART_DMA_Buffer p + 8) % cap := by
  obtain ⟨hp, hne, _, _, hL, _⟩ := scanLoop_found cap _ w _ _ _ _ hr hscan
  have hlt : L < cap := by rw [hL]; exact pending_lt hp hw hne
  have hex := extract_complete cap crc w { st with g_uart_write_index := p } L hlt
    (by rw [hL]; exact hlen) hfit htail
  obtain ⟨h1, h2, _, h4⟩ := completeResult_spec cap crc { st with g_uart_write_index := p }
  refine ⟨(completeResult cap crc { st with g_uart_write_index := p }).1,
    (completeResult cap crc { st with g_uart_write_index := p }).2, ?_, h1, h2, h4⟩
  rw [UART_IsCommandAvailable_of_found cap crc w st p L hscan, hex]

/-- C1. `UART_IsCommandAvailable` on a complete frame.  When the scan finds the
marker at `p`, the declared length `Size` satisfies `Size + 8 ≤` the bytes
pending from `p`, and the end marker `DC BA` sits at `p + 4 + Size + 2` and
`p + 4 + Size + 3` (mod `cap`), the call returns; the codec mode afterwards is
the toggled one; the first `Size + 2` working-buffer bytes are the ring bytes
`p + 4 ..` (mod `cap`), XORed with `Obfuscation[i mod 16]` exactly when the
mode afterwards is encrypted; and the result is true iff the checksum of the
first `Size` working-buffer bytes equals the 16-bit little-endian value at
`Size`, `Size + 1`.  (`hfit`: payload and checksum fit the 256-byte working
buffer, which holds for every such frame when `cap ≤ 263`.) -/
theorem UART_IsCommandAvailable_complete_frame (cap : Nat) (crc : List Nat → Nat) (w : Nat)
    (st : UartState) (p L : Nat)
    (hr : st.g_uart_write_index < cap) (hw : w < cap)
    (hscan : scanLoop cap st.UART_DMA_Buffer w cap st.g_uart_write_index =
      some (Scan.found p L))
    (hlen : declaredSize cap st.UART_DMA_Buffer p + 8 ≤ pending cap p w)
    (hfit : declaredSize cap st.UART_DMA_Buffer p + 2 ≤ 256)
    (htail : st.UART_DMA_Buffer ((p + 4 + declaredSize cap st.UART_DMA_Buffer p + 2) % cap) = 0xDC ∧
      st.UART_DMA_Buffer ((p + 4 + declaredSize cap st.UART_DMA_Buffer p + 3) % cap) = 0xBA) :
    ∃ st' b, UART_IsCommandAvailable cap crc w st = some (st', b) ∧
      st'.bIsEncrypted =
        toggle st.bIsEncrypted
          (le16 (st.UART_DMA_Buffer ((p + 4) % cap)) (st.UART_DMA_Buffer ((p + 5) % cap))) ∧
      (∀ i, i < declaredSize cap st.UART_DMA_Buffer p + 2 →
        st'.UART_Command i =
          if st'.bIsEncrypted then
            st.UART_DMA_Buffer ((p + 4 + i) % cap) ^^^ Obfuscation.getD (i % 16) 0
          else st.UART_DMA_Buffer ((p + 4 + i) % cap)) ∧
      (b = true ↔
        crc (bytes st'.UART_Command (declaredSize cap st.UART_DMA_Buffer p)) =
          le16 (st'.UART_Command (declaredSize cap st.UART_DMA_Buffer p))
               (st'.UART_Command (declaredSize cap st.UART_DMA_Buffer p + 1))) := by
  obtain ⟨hp, hne, _, _, hL, _⟩ := scanLoop_found cap _ w _ _ _ _ hr hscan
  have hlt : L < cap := by rw [hL]; exact pending_lt hp hw hne
  have hex := extract_complete cap crc w { st with g_uart_write_index := p } L hlt
    (by rw [hL]; exact hlen) hfit htail
  obtain ⟨h1, h2, h3, _⟩ := completeResult_spec cap crc { st with g_uart_write_index := p }
  refine ⟨_, _, ?_, h1, h2, h3⟩
  rw [UART_IsCommandAvailable_of_found cap crc w st p L hscan, hex]

/-- Worked instance of C1 on `sampleState` with the write cursor at 6: the scan
skips the two stray bytes, finds the marker at 12, and the frame wraps. -/
theorem UART_IsCommandAvailable_complete_frame_witness :
    (∃ st' b, UART_IsCommandAvailable 16 sampleCrc 6 sampleState = some (st', b) ∧
      st'.bIsEncrypted =
        toggle sampleState.bIsEncrypted
          (le16 (sampleState.UART_DMA_Buffer ((12 + 4) % 16))
            (sampleState.UART_DMA_Buffer ((12 + 5) % 16))) ∧
      (∀ i, i < declaredSize 16 sampleState.UART_DMA_Buffer 12 + 2 →
        st'.UART_Command i =
          if st'.bIsEncrypted then
            sampleState.UART_DMA_Buffer ((12 + 4 + i) % 16) ^^^ Obfuscation.getD (i % 16) 0
          else sampleState.UART_DMA_Buffer ((12 + 4 + i) % 16)) ∧
      (b = true ↔
        sampleCrc (bytes st'.UART_Command (declaredSize 16 sampleState.UART_DMA_Buffer 12)) =
          le16 (st'.UART_Command (declaredSize 16 sampleState.UART_DMA_Buffer 12))
               (st'.UART_Command (declaredSize 16 sampleState.UART_DMA_Buffer 12 + 1)))) ∧
    (UART_IsCommandAvailable 16 sampleCrc 6 sampleState).map Prod.snd = some true :=
  ⟨UART_IsCommandAvailable_complete_frame 16 sampleCrc 6 sampleState 12 10
    (by decide) (by decide) (by decide) (by decide) (by decide) (by decide), by decide⟩

/-- C2. Structural desync discards everything.  When the scan finds the marker
at `p` (hence with at least 8 bytes pending) and either the declared length
has `Size + 8 > cap`, or the frame is complete (`Size + 8 ≤` pending from `p`)
but the two bytes at `p + 4 + Size + 2`, `p + 4 + Size + 3` (mod `cap`) are not
`DC BA`, the call returns false and its only effect is to set the read cursor
to the write cursor. -/
theorem UART_IsCommandAvailable_desync (cap : Nat) (crc : List Nat → Nat) (w : Nat)
    (st : UartState) (p L : Nat)
    (hr : st.g_uart_write_index < cap) (hw : w < cap)
    (hscan : scanLoop cap st.UART_DMA_Buffer w cap st.g_uart_write_index =
      some (Scan.found p L))
    (h : cap < declaredSize cap st.UART_DMA_Buffer p + 8 ∨
      (declaredSize cap st.UART_DMA_Buffer p + 8 ≤ pending cap p w ∧
        ¬ (st.UART_DMA_Buffer ((p + 4 + declaredSize cap st.UART_DMA_Buffer p + 2) % cap) = 0xDC ∧
           st.UART_DMA_Buffer ((p + 4 + declaredSize cap st.UART_DMA_Buffer p + 3) % cap) = 0xBA))) :
    8 ≤ pending cap p w ∧
    UART_IsCommandAvailable cap crc w st = some ({ st with g_uart_write_index := w }, false) := by
  obtain ⟨hp, hne, _, _, hL, h8⟩ := scanLoop_found cap _ w _ _ _ _ hr hscan
  have hlt : L < cap := by rw [hL]; exact pending_lt hp hw hne
  refine ⟨by omega, ?_⟩
  rw [UART_IsCommandAvailable_of_found cap crc w st p L hscan]
  rcases h with h | ⟨h1, h2⟩
  · exact extract_oversize cap crc w { st with g_uart_write_index := p } L h
  · exact extract_bad_tail cap crc w { st with g_uart_write_index := p } L
      (by show declaredSize cap st.UART_DMA_Buffer p + 8 ≤ cap; omega)
      (by show declaredSize cap st.UART_DMA_Buffer p + 8 ≤ L; omega) h2

/-- Worked instance of C2: the sample frame with its end marker altered, the
cursor goes from 10 to the write cursor 6. -/
theorem UART_IsCommandAvailable_desync_witness :
    8 ≤ pending 16 12 6 ∧
    UART_IsCommandAvailable 16 sampleCrc 6 { sampleState with UART_DMA_Buffer := sampleRingBadTail } =
      some ({ { sampleState with UART_DMA_Buffer := sampleRingBadTail } with
                g_uart_write_index := 6 }, false) :=
  UART_IsCommandAvailable_desync 16 sampleCrc 6
    { sampleState with UART_DMA_Buffer := sampleRingBadTail } 12 10
    (by decide) (by decide) (by decide) (Or.inr ⟨by decide, by decide⟩)

/-- The ring read as empty (lines 450-451): with the write cursor on the read
cursor the call returns false and changes nothing. -/
theorem UART_IsCommandAvailable_empty (cap : Nat) (crc : List Nat → Nat)
    (st : UartState) (hcap : 0 < cap) :
    UART_IsCommandAvailable cap crc st.g_uart_write_index st = some (st, false) := by
  obtain ⟨k, hk⟩ : ∃ k, cap = k + 1 := ⟨cap - 1, by omega⟩
  unfold UART_IsCommandAvailable
  have h : scanLoop cap st.UART_DMA_Buffer st.g_uart_write_index cap st.g_uart_write_index =
      some (Scan.noFrame st.g_uart_write_index) := by
    rw [hk]
    simp [scanLoop]
  rw [h]

/-- A frame as long as the ring is never extracted.  With the read cursor on a
marker `AB CD` whose declared length has `Size + 8 = cap`, the call returns
false and changes nothing wherever the write cursor is: on the read cursor the
ring reads as empty, anywhere else at most `cap - 1` bytes are pending. -/
theorem UART_IsCommandAvailable_full_frame (cap : Nat) (crc : List Nat → Nat)
    (st : UartState) (w1 : Nat)
    (hp : st.g_uart_write_index < cap) (hw1 : w1 < cap)
    (hab : st.UART_DMA_Buffer st.g_uart_write_index = 0xAB)
    (hcd : st.UART_DMA_Buffer ((st.g_uart_write_index + 1) % cap) = 0xCD)
    (hfull : declaredSize cap st.UART_DMA_Buffer st.g_uart_write_index + 8 = cap) :
    UART_IsCommandAvailable cap crc w1 st = some (st, false) := by
  have hcap : 0 < cap := by omega
  by_cases hne : w1 = st.g_uart_write_index
  · rw [hne]
    exact UART_IsCommandAvailable_empty cap crc st hcap
  · have hlt := pending_lt hp hw1 (Ne.symm hne)
    by_cases h8 : 8 ≤ pending cap st.g_uart_write_index w1
    · rw [UART_IsCommandAvailable_of_found cap crc w1 st _ _
        (scanLoop_at_marker cap _ w1 _ (Ne.symm hne) hcap hab hcd h8)]
      exact extract_incomplete cap crc w1 st _ (by omega) (by omega)
    · unfold UART_IsCommandAvailable
      rw [scanLoop_short cap _ w1 _ (Ne.symm hne) hcap hab (by omega)]

/-- C3, as stated, fails when `Size + 8` equals the capacity.  In a 16-byte
ring a frame with `Size = 8` starts at `p = 4`.  With the write cursor at 3
(15 bytes pending, the last frame byte missing) the scan finds the marker at
4, `Size + 8 ≤ 16`, fewer than `Size + 8` bytes are pending, and the call
returns false leaving everything as it was, as the claim says.  Then the last
byte arrives: the ring keeps the 15 bytes it had and now holds the whole
frame, with a good end marker and a matching checksum, and the write cursor
has come round to 4.  The call returns false and changes nothing (lines
450-451 read the ring as empty), and so it does for every other position of
the write cursor: no later call extracts the frame. -/
theorem UART_IsCommandAvailable_full_ring_counterexample :
    scanLoop 16 samplePartRing 3 16 4 = some (Scan.found 4 15) ∧
    declaredSize 16 samplePartRing 4 + 8 ≤ 16 ∧
    pending 16 4 3 < declaredSize 16 samplePartRing 4 + 8 ∧
    UART_IsCommandAvailable 16 sampleCrc 3
        { sampleFullState with UART_DMA_Buffer := samplePartRing } =
      some ({ sampleFullState with UART_DMA_Buffer := samplePartRing }, false) ∧
    (∀ i, i < 15 → sampleFullRing ((4 + i) % 16) = samplePartRing ((4 + i) % 16)) ∧
    bytes (fun i => sampleFullRing ((4 + i) % 16)) 16 = frame sampleFullPayload 0x1C 0xA1 ∧
    sampleCrc sampleFullPayload = le16 0x1C 0xA1 ∧
    UART_IsCommandAvailable 16 sampleCrc 4 sampleFullState = some (sampleFullState, false) ∧
    (∀ w1, w1 < 16 →
      UART_IsCommandAvailable 16 sampleCrc w1 sampleFullState = some (sampleFullState, false)) :=
  ⟨by decide, by decide, by decide,
   UART_IsCommandAvailable_full_frame 16 sampleCrc
     { sampleFullState with UART_DMA_Buffer := samplePartRing } 3
     (by decide) (by decide) (by decide) (by decide) (by decide),
   by decide, by decide, by decide,
   UART_IsCommandAvailable_empty 16 sampleCrc sampleFullState (by decide),
   fun w1 hw1 => UART_IsCommandAvailable_full_frame 16 sampleCrc sampleFullState w1
     (by decide) hw1 (by decide) (by decide) (by decide)⟩

/-- C3, amended.  Incomplete frames are never discarded.  When the scan finds
the marker at `p`, `Size + 8 ≤ cap` and fewer than `Size + 8` bytes are
pending from `p`, the call returns false and changes nothing but the read
cursor, which it leaves at `p`.  Consequently: for every later ring content
`ring1` that agrees with the old one on the bytes that were pending, and every
later write cursor `w1` other than `p` with at least `Size + 8` bytes pending
from `p` (which needs `Size + 8 < cap`), if the end marker is in place, the
next call extracts the frame (as in C1) and moves the cursor to
`p + Size + 8` (mod `cap`).  When `Size + 8 = cap` the frame is never
extracted: for every such later ring content and every write cursor, `p`
included, the next call returns false and changes nothing. -/
theorem UART_IsCommandAvailable_incomplete (cap : Nat) (crc : List Nat → Nat) (w : Nat)
    (st : UartState) (p L : Nat)
    (hr : st.g_uart_write_index < cap)
    (hscan : scanLoop cap st.UART_DMA_Buffer w cap st.g_uart_write_index =
      some (Scan.found p L))
    (hsize : declaredSize cap st.UART_DMA_Buffer p + 8 ≤ cap)
    (hshort : pending cap p w < declaredSize cap st.UART_DMA_Buffer p + 8) :
    UART_IsCommandAvailable cap crc w st = some ({ st with g_uart_write_index := p }, false) ∧
    (∀ (ring1 : Mem) (w1 : Nat), w1 < cap → w1 ≠ p →
      (∀ i, i < pending cap p w → ring1 ((p + i) % cap) = st.UART_DMA_Buffer ((p + i) % cap)) →
      declaredSize cap st.UART_DMA_Buffer p + 8 ≤ pending cap p w1 →
      declaredSize cap st.UART_DMA_Buffer p + 2 ≤ 256 →
      ring1 ((p + 4 + declaredSize cap st.UART_DMA_Buffer p + 2) % cap) = 0xDC →
      ring1 ((p + 4 + declaredSize cap st.UART_DMA_Buffer p + 3) % cap) = 0xBA →
      ∃ st' b,
        UART_IsCommandAvailable cap crc w1
          { st with g_uart_write_index := p, UART_DMA_Buffer := ring1 } = some (st', b) ∧
        st'.g_uart_write_index = (p + declaredSize cap st.UART_DMA_Buffer p + 8) % cap ∧
        st'.bIsEncrypted =
          toggle st.bIsEncrypted (le16 (ring1 ((p + 4) % cap)) (ring1 ((p + 5) % cap))) ∧
        (∀ i, i < declaredSize cap st.UART_DMA_Buffer p + 2 →
          st'.UART_Command i =
            if st'.bIsEncrypted then ring1 ((p + 4 + i) % cap) ^^^ Obfuscation.getD (i % 16) 0
            else ring1 ((p + 4 + i) % cap)) ∧
        (b = true ↔
          crc (bytes st'.UART_Command (declaredSize cap st.UART_DMA_Buffer p)) =
            le16 (st'.UART_Command (declaredSize cap st.UART_DMA_Buffer p))
                 (st'.UART_Command (declaredSize cap st.UART_DMA_Buffer p + 1)))) ∧
    (declaredSize cap st.UART_DMA_Buffer p + 8 = cap →
      ∀ (ring1 : Mem) (w1 : Nat), w1 < cap →
        (∀ i, i < pending cap p w →
          ring1 ((p + i) % cap) = st.UART_DMA_Buffer ((p + i) % cap)) →
        UART_IsCommandAvailable cap crc w1
            { st with g_uart_write_index := p, UART_DMA_Buffer := ring1 } =
          some ({ st with g_uart_write_index := p, UART_DMA_Buffer := ring1 }, false)) := by
  obtain ⟨hp, hne, hab, hcd, hL, h8⟩ := scanLoop_found cap _ w _ _ _ _ hr hscan
  have hp0 : p % cap = p := Nat.mod_eq_of_lt hp
  have hcap : 0 < cap := by omega
  have keep : ∀ (ring1 : Mem),
      (∀ i, i < pending cap p w → ring1 ((p + i) % cap) = st.UART_DMA_Buffer ((p + i) % cap)) →
      ring1 p = 0xAB ∧ ring1 ((p + 1) % cap) = 0xCD ∧
        declaredSize cap ring1 p = declaredSize cap st.UART_DMA_Buffer p := by
    intro ring1 hsame
    have hk : ∀ k, k < 8 → ring1 ((p + k) % cap) = st.UART_DMA_Buffer ((p + k) % cap) :=
      fun k hk => hsame k (by omega)
    refine ⟨?_, ?_, ?_⟩
    · have := hk 0 (by omega)
      rw [Nat.add_zero, hp0] at this
      rw [this, hab]
    · rw [hk 1 (by omega), hcd]
    · unfold declaredSize
      rw [hk 2 (by omega), hk 3 (by omega)]
  refine ⟨?_, ?_, ?_⟩
  · rw [UART_IsCommandAvailable_of_found cap crc w st p L hscan]
    exact extract_incomplete cap crc w { st with g_uart_write_index := p } L hsize
      (by show L < declaredSize cap st.UART_DMA_Buffer p + 8; omega)
  · intro ring1 w1 hw1 hne1 hsame hlen hfit ht1 ht2
    obtain ⟨hab1, hcd1, hsz⟩ := keep ring1 hsame
    have hscan1 : scanLoop cap ring1 w1 cap p = some (Scan.found p (pending cap p w1)) :=
      scanLoop_at_marker cap ring1 w1 p (Ne.symm hne1) hcap hab1 hcd1 (by omega)
    have hlt : pending cap p w1 < cap := pending_lt hp hw1 (Ne.symm hne1)
    have hex := extract_complete cap crc w1
      { st with g_uart_write_index := p, UART_DMA_Buffer := ring1 } (pending cap p w1) hlt
      (by show declaredSize cap ring1 p + 8 ≤ _; rw [hsz]; exact hlen)
      (by show declaredSize cap ring1 p + 2 ≤ _; rw [hsz]; exact hfit)
      (by show ring1 _ = _ ∧ ring1 _ = _; rw [hsz]; exact ⟨ht1, ht2⟩)
    obtain ⟨h1, h2, h3, h4⟩ := completeResult_spec cap crc
      { st with g_uart_write_index := p, UART_DMA_Buffer := ring1 }
    simp only [hsz] at h1 h2 h3 h4
    refine ⟨_, _, ?_, h4, h1, h2, h3⟩
    rw [UART_IsCommandAvailable_of_found cap crc w1 _ p _ hscan1, hex]
  · intro hfull ring1 w1 hw1 hsame
    obtain ⟨hab1, hcd1, hsz⟩ := keep ring1 hsame
    exact UART_IsCommandAvailable_full_frame cap crc
      { st with g_uart_write_index := p, UART_DMA_Buffer := ring1 } w1 hp hw1 hab1 hcd1
      (by show declaredSize cap ring1 p + 8 = cap; rw [hsz]; exact hfull)

/-- Worked instance of amended C3.  With the write cursor at 5 the sample
frame lacks its last byte and the call leaves the cursor on the marker at 12;
once the write cursor is at 6 the next call extracts the frame.  The frame of
`samplePartRing` is as long as the ring: once its last byte is stored the call
still returns false, wherever the write cursor is. -/
theorem UART_IsCommandAvailable_incomplete_witness :
    (UART_IsCommandAvailable 16 sampleCrc 5 sampleState =
      some ({ sampleState with g_uart_write_index := 12 }, false) ∧
    ∃ st' b,
      UART_IsCommandAvailable 16 sampleCrc 6
        { sampleState with g_uart_write_index := 12, UART_DMA_Buffer := sampleRing } =
          some (st', b) ∧
      st'.g_uart_write_index = (12 + declaredSize 16 sampleState.UART_DMA_Buffer 12 + 8) % 16 ∧
      st'.bIsEncrypted =
        toggle sampleState.bIsEncrypted
          (le16 (sampleRing ((12 + 4) % 16)) (sampleRing ((12 + 5) % 16))) ∧
      (∀ i, i < declaredSize 16 sampleState.UART_DMA_Buffer 12 + 2 →
        st'.UART_Command i =
          if st'.bIsEncrypted then
            sampleRing ((12 + 4 + i) % 16) ^^^ Obfuscation.getD (i % 16) 0
          else sampleRing ((12 + 4 + i) % 16)) ∧
      (b = true ↔
        sampleCrc (bytes st'.UART_Command (declaredSize 16 sampleState.UART_DMA_Buffer 12)) =
          le16 (st'.UART_Command (declaredSize 16 sampleState.UART_DMA_Buffer 12))
               (st'.UART_Command (declaredSize 16 sampleState.UART_DMA_Buffer 12 + 1)))) ∧
    (∀ w1, w1 < 16 →
      UART_IsCommandAvailable 16 sampleCrc w1
          { sampleFullState with g_uart_write_index := 4, UART_DMA_Buffer := sampleFullRing } =
        some ({ sampleFullState with g_uart_write_index := 4,
                                     UART_DMA_Buffer := sampleFullRing }, false)) :=
  ⟨⟨(UART_IsCommandAvailable_incomplete 16 sampleCrc 5 sampleState 12 9
      (by decide) (by decide) (by decide) (by decide)).1,
    (UART_IsCommandAvailable_incomplete 16 sampleCrc 5 sampleState 12 9
      (by decide) (by decide) (by decide) (by decide)).2.1 sampleRing 6
      (by decide) (by decide) (fun _ _ => rfl) (by decide) (by decide) (by decide) (by decide)⟩,
   fun w1 hw1 =>
    (UART_IsCommandAvailable_incomplete 16 sampleCrc 3
      { sampleFullState with UART_DMA_Buffer := samplePartRing } 4 15
      (by decide) (by decide) (by decide) (by decide)).2.2 (by decide) sampleFullRing w1 hw1
      (by decide)⟩

/-! ## Frames placed in the ring -/

theorem le16_split (S : Nat) (h : S < 65536) : le16 (S % 256) (S / 256 % 256) = S := by
  unfold le16
  have h1 : S / 256 % 256 = S / 256 := Nat.mod_eq_of_lt (by omega)
  have h2 : S % 256 < 2 ^ 8 := by omega
  rw [h1, Nat.shiftLeft_eq, Nat.mul_comm, ← Nat.mul_add_lt_is_or h2]
  omega

theorem frame_length (payload : List Nat) (c0 c1 : Nat) :
    (frame payload c0 c1).length = payload.length + 8 := by
  unfold frame
  simp only [List.length_append, List.length_cons, List.length_nil]
  omega

theorem frame_getD_head (payload : List Nat) (c0 c1 k : Nat) (hk : k < 4) :
    (frame payload c0 c1).getD k 0 =
      [0xAB, 0xCD, payload.length % 256, payload.length / 256 % 256].getD k 0 := by
  unfold frame
  rw [List.getD_append _ _ _ _ (by simp; omega), List.getD_append _ _ _ _ (by simpa using hk)]

theorem frame_getD_tail (payload : List Nat) (c0 c1 k : Nat) :
    (frame payload c0 c1).getD (4 + payload.length + k) 0 = [c0, c1, 0xDC, 0xBA].getD k 0 := by
  unfold frame
  rw [List.getD_append_right _ _ _ _ (by simp; omega)]
  congr 1
  simp only [List.length_append, List.length_cons, List.length_nil]
  omega

theorem placed_at (cap : Nat) (bg : Mem) (s : Nat) (f : List Nat) (i : Nat)
    (hs : s < cap) (hi : i < f.length) (hf : f.length ≤ cap) :
    placed cap bg s f ((s + i) % cap) = f.getD i 0 := by
  have key : ((s + i) % cap + cap - s) % cap = i := by
    by_cases h : s + i < cap
    · rw [Nat.mod_eq_of_lt h]
      have e : s + i + cap - s = i + cap := by omega
      rw [e, Nat.add_mod_right]
      exact Nat.mod_eq_of_lt (by omega)
    · have e0 : (s + i) % cap = s + i - cap := mod_wrap (by omega) (by omega)
      have e : s + i - cap + cap - s = i := by omega
      rw [e0, e]
      exact Nat.mod_eq_of_lt (by omega)
  unfold placed
  simp only [key]
  rw [if_pos hi]

/-- A frame stored at offset `s` of the ring, shorter than the ring, with the
cursors around it, is extracted to `frameResult`, whatever `s` is. -/
theorem placed_extract (cap : Nat) (crc : List Nat → Nat) (payload : List Nat) (c0 c1 : Nat)
    (bg cmd : Mem) (enc : Bool) (s : Nat)
    (hs : s < cap) (hlen : payload.length + 8 < cap) (hfit : payload.length + 2 ≤ 256) :
    ∃ st', UART_IsCommandAvailable cap crc ((s + payload.length + 8) % cap)
        { UART_DMA_Buffer := placed cap bg s (frame payload c0 c1), UART_Command := cmd,
          g_uart_write_index := s, bIsEncrypted := enc } =
          some (st', (frameResult crc payload c0 c1 cmd enc).2.2) ∧
      st'.UART_Command = (frameResult crc payload c0 c1 cmd enc).1 ∧
      st'.bIsEncrypted = (frameResult crc payload c0 c1 cmd enc).2.1 := by
  have hcap : 0 < cap := by omega
  have hfl := frame_length payload c0 c1
  have hat : ∀ i, i < payload.length + 8 →
      placed cap bg s (frame payload c0 c1) ((s + i) % cap) = (frame payload c0 c1).getD i 0 :=
    fun i hi => placed_at cap bg s _ i hs (by omega) (by omega)
  have hab : placed cap bg s (frame payload c0 c1) s = 0xAB := by
    have h := hat 0 (by omega)
    rw [Nat.add_zero, Nat.mod_eq_of_lt hs, frame_getD_head _ _ _ 0 (by omega)] at h
    exact h
  have hcd : placed cap bg s (frame payload c0 c1) ((s + 1) % cap) = 0xCD := by
    rw [hat 1 (by omega), frame_getD_head _ _ _ 1 (by omega)]
    rfl
  have hsz : declaredSize cap (placed cap bg s (frame payload c0 c1)) s = payload.length := by
    unfold declaredSize
    rw [hat 2 (by omega), hat 3 (by omega), frame_getD_head _ _ _ 2 (by omega),
      frame_getD_head _ _ _ 3 (by omega)]
    exact le16_split _ (by omega)
  have hne : s ≠ (s + payload.length + 8) % cap := by
    by_cases h : s + payload.length + 8 < cap
    · rw [Nat.mod_eq_of_lt h]; omega
    · rw [mod_wrap (by omega) (by omega)]; omega
  have hpend : pending cap s ((s + payload.length + 8) % cap) = payload.length + 8 := by
    unfold pending
    by_cases h : s + payload.length + 8 < cap
    · rw [Nat.mod_eq_of_lt h, if_pos (by omega)]; omega
    · rw [mod_wrap (by omega) (by omega), if_neg (by omega)]; omega
  have hscan := scanLoop_at_marker cap (placed cap bg s (frame payload c0 c1))
    ((s + payload.length + 8) % cap) s hne hcap hab hcd (by omega)
  have ht1 : placed cap bg s (frame payload c0 c1) ((s + 4 + payload.length + 2) % cap) = 0xDC := by
    have e : s + 4 + payload.length + 2 = s + (4 + payload.length + 2) := by omega
    rw [e, hat _ (by omega), frame_getD_tail]
    rfl
  have ht2 : placed cap bg s (frame payload c0 c1) ((s + 4 + payload.length + 3) % cap) = 0xBA := by
    have e : s + 4 + payload.length + 3 = s + (4 + payload.length + 3) := by omega
    rw [e, hat _ (by omega), frame_getD_tail]
    rfl
  have hex := extract_complete cap crc ((s + payload.length + 8) % cap)
    { UART_DMA_Buffer := placed cap bg s (frame payload c0 c1), UART_Command := cmd,
      g_uart_write_index := s, bIsEncrypted := enc }
    (pending cap s ((s + payload.length + 8) % cap)) (by omega)
    (by show declaredSize cap (placed cap bg s (frame payload c0 c1)) s + 8 ≤ _
        rw [hsz, hpend])
    (by show declaredSize cap (placed cap bg s (frame payload c0 c1)) s + 2 ≤ _
        rw [hsz]; exact hfit)
    (by show placed cap bg s (frame payload c0 c1) _ = _ ∧
          placed cap bg s (frame payload c0 c1) _ = _
        rw [hsz]; exact ⟨ht1, ht2⟩)
  have hcopy : payloadCopy cap (placed cap bg s (frame payload c0 c1)) cmd s
      (payload.length + 2) =
      fun i => if i < payload.length + 2 then (frame payload c0 c1).getD (4 + i) 0 else cmd i := by
    funext i
    unfold payloadCopy
    by_cases hi : i < payload.length + 2
    · have e : s + 4 + i = s + (4 + i) := by omega
      rw [if_pos hi, if_pos hi, e, hat _ (by omega)]
    · rw [if_neg hi, if_neg hi]
  refine ⟨(completeResult cap crc
    { UART_DMA_Buffer := placed cap bg s (frame payload c0 c1), UART_Command := cmd,
      g_uart_write_index := s, bIsEncrypted := enc }).1, ?_, ?_, ?_⟩
  · rw [UART_IsCommandAvailable_of_found cap crc _ _ s _ hscan]
    show extract _ _ _ _ _ = _
    rw [hex]
    simp only [completeResult, hsz, hcopy]
    rfl
  · simp only [completeResult, hsz, hcopy]
    rfl
  · simp only [completeResult, hsz, hcopy]
    rfl

/-- C4. Wrap-around independence of extraction.  For every frame (payload of
length `Size`, any two checksum bytes) that fits the ring and the working
buffer, and every start offset `s < cap`: with the frame stored at positions
`(s + i) % cap`, read cursor `s` and write cursor `(s + Size + 8) % cap`, the
call returns the same flag, the same `Size + 2` working-buffer bytes and the
same codec mode as with the frame stored at offset 0, whatever the other ring
bytes are; and when the frame is shorter than the ring both are the decoding
`frameResult` of the frame. -/
theorem UART_IsCommandAvailable_wrap_independent (cap : Nat) (crc : List Nat → Nat)
    (payload : List Nat) (c0 c1 : Nat) (bg bg0 cmd : Mem) (enc : Bool) (s : Nat)
    (hs : s < cap) (hlen : payload.length + 8 ≤ cap) (hfit : payload.length + 2 ≤ 256) :
    ∃ st' st0 b,
      UART_IsCommandAvailable cap crc ((s + payload.length + 8) % cap)
        { UART_DMA_Buffer := placed cap bg s (frame payload c0 c1), UART_Command := cmd,
          g_uart_write_index := s, bIsEncrypted := enc } = some (st', b) ∧
      UART_IsCommandAvailable cap crc ((0 + payload.length + 8) % cap)
        { UART_DMA_Buffer := placed cap bg0 0 (frame payload c0 c1), UART_Command := cmd,
          g_uart_write_index := 0, bIsEncrypted := enc } = some (st0, b) ∧
      (∀ i, i < payload.length + 2 → st'.UART_Command i = st0.UART_Command i) ∧
      st'.bIsEncrypted = st0.bIsEncrypted ∧
      (payload.length + 8 < cap →
        st'.UART_Command = (frameResult crc payload c0 c1 cmd enc).1 ∧
        b = (frameResult crc payload c0 c1 cmd enc).2.2) := by
  by_cases hlt : payload.length + 8 < cap
  · obtain ⟨st', h1, h2, h3⟩ := placed_extract cap crc payload c0 c1 bg cmd enc s hs hlt hfit
    obtain ⟨st0, k1, k2, k3⟩ :=
      placed_extract cap crc payload c0 c1 bg0 cmd enc 0 (by omega) hlt hfit
    exact ⟨st', st0, _, h1, k1, fun i _ => by rw [h2, k2], by rw [h3, k3], fun _ => ⟨h2, rfl⟩⟩
  · have hcap : 0 < cap := by omega
    have e1 : (s + payload.length + 8) % cap = s := by
      have e : s + payload.length + 8 = s + cap := by omega
      rw [e, Nat.add_mod_right]
      exact Nat.mod_eq_of_lt hs
    have e2 : (0 + payload.length + 8) % cap = 0 := by
      have e : 0 + payload.length + 8 = cap := by omega
      rw [e, Nat.mod_self]
    rw [e1, e2]
    exact ⟨_, _, false,
      UART_IsCommandAvailable_empty cap crc
        { UART_DMA_Buffer := placed cap bg s (frame payload c0 c1), UART_Command := cmd,
          g_uart_write_index := s, bIsEncrypted := enc } hcap,
      UART_IsCommandAvailable_empty cap crc
        { UART_DMA_Buffer := placed cap bg0 0 (frame payload c0 c1), UART_Command := cmd,
          g_uart_write_index := 0, bIsEncrypted := enc } hcap,
      fun _ _ => rfl, rfl, fun h => absurd h hlt⟩

/-- Worked instance of C4: the sample frame stored from offset 12 of a
16-byte ring (its payload straddles the end) against the same frame at 0. -/
theorem UART_IsCommandAvailable_wrap_independent_witness :
    ∃ st' st0 b,
      UART_IsCommandAvailable 16 sampleCrc ((12 + [0x31, 0x69].length + 8) % 16)
        { UART_DMA_Buffer := placed 16 (fun _ => 0) 12 (frame [0x31, 0x69] 0xAA 0xE2),
          UART_Command := fun _ => 0, g_uart_write_index := 12, bIsEncrypted := true } =
          some (st', b) ∧
      UART_IsCommandAvailable 16 sampleCrc ((0 + [0x31, 0x69].length + 8) % 16)
        { UART_DMA_Buffer := placed 16 (fun _ => 0x55) 0 (frame [0x31, 0x69] 0xAA 0xE2),
          UART_Command := fun _ => 0, g_uart_write_index := 0, bIsEncrypted := true } =
          some (st0, b) ∧
      (∀ i, i < [0x31, 0x69].length + 2 → st'.UART_Command i = st0.UART_Command i) ∧
      st'.bIsEncrypted = st0.bIsEncrypted ∧
      ([0x31, 0x69].length + 8 < 16 →
        st'.UART_Command = (frameResult sampleCrc [0x31, 0x69] 0xAA 0xE2 (fun _ => 0) true).1 ∧
        b = (frameResult sampleCrc [0x31, 0x69] 0xAA 0xE2 (fun _ => 0) true).2.2) :=
  UART_IsCommandAvailable_wrap_independent 16 sampleCrc [0x31, 0x69] 0xAA 0xE2
    (fun _ => 0) (fun _ => 0x55) (fun _ => 0) true 12 (by decide) (by decide) (by decide)

/-! ## Properties of the transport codec -/

theorem bytes_length (m : Mem) (n : Nat) : (bytes m n).length = n := by
  simp [bytes]

theorem bytes_getD (m : Mem) (n i : Nat) (hi : i < n) : (bytes m n).getD i 0 = m i := by
  simp [bytes, hi]

theorem bytes_congr (a b : Mem) (n : Nat) (h : ∀ i, i < n → a i = b i) :
    bytes a n = bytes b n :=
  List.map_congr_left (fun i hi => h i (List.mem_range.mp hi))

theorem bytes_memOf (l : List Nat) : bytes (memOf l) l.length = l := by
  apply List.ext_getElem
  · rw [bytes_length]
  · intro i h1 h2
    simp [bytes, memOf, List.getD_eq_getElem, h2]

theorem SendReply_wire_body (enc : Bool) (buf : Mem) (n : Nat) :
    ((SendReply enc buf n).wire.drop 4).take n = bytes (SendReply enc buf n).pReply n := by
  simp only [SendReply, List.append_assoc]
  rw [List.drop_append_of_le_length (by simp)]
  simp only [List.length_cons, List.length_nil, List.drop_succ_cons, List.drop_zero,
    List.nil_append]
  rw [List.take_append_of_le_length (by rw [bytes_length])]
  exact List.take_of_length_le (by rw [bytes_length])

/-- C5. Obfuscation is an involution and the same transform in both
directions.  The loop that XORs byte `i` with `Obfuscation[i mod 16]`, run
twice over the first `n` bytes of any memory, restores it, for every `n`,
and so restores every byte list of every length;
this is the loop `SendReply` runs on outgoing bytes in encrypted mode, so
sending a reply twice over the same memory leaves the memory as it was, and
the bytes a receiver gets by running the loop on what `SendReply` put on the
wire are the original reply bytes. -/
theorem Obfuscation_involution (buf : Mem) (n : Nat) :
    xorLoop (xorLoop buf n) n = buf ∧
    (∀ l : List Nat, bytes (xorLoop (xorLoop (memOf l) l.length) l.length) l.length = l) ∧
    (SendReply true (SendReply true buf n).pReply n).pReply = buf ∧
    bytes (xorLoop (memOf (((SendReply true buf n).wire.drop 4).take n)) n) n = bytes buf n := by
  refine ⟨xorLoop_xorLoop buf n, fun l => by rw [xorLoop_xorLoop, bytes_memOf],
    xorLoop_xorLoop buf n, ?_⟩
  rw [SendReply_wire_body]
  apply bytes_congr
  intro i hi
  rw [xorLoop_apply, if_pos hi]
  unfold memOf
  rw [bytes_getD _ _ _ hi]
  show xorLoop buf n i ^^^ _ = buf i
  rw [xorLoop_apply, if_pos hi, Nat.xor_assoc, Nat.xor_self, Nat.xor_zero]

/-! ## Properties of the authenticator -/

theorem IsBadChallenge_eq_false (aes : AES) (key chal resp : Mem) :
    IsBadChallenge aes key chal resp = false ↔
      ∀ i, i < 4 → resp i = aes key (fun _ => 0) chal true i := by
  unfold IsBadChallenge
  simp only [List.any_eq_false, List.mem_range, bne_iff_ne, ne_eq, not_not]
  constructor
  · intro h i hi
    exact (h i hi).symm
  · intro h i hi
    exact (h i hi).symm

theorem xor_two_pow_ne (x bit : Nat) : x ^^^ 2 ^ bit ≠ x := by
  intro h
  have h2 : x ^^^ 2 ^ bit = x ^^^ 0 := by rw [h, Nat.xor_zero]
  have h3 := Nat.xor_right_injective h2
  have h4 : 0 < 2 ^ bit := Nat.pos_pow_of_pos _ (by omega)
  omega

/-- C6. `IsBadChallenge` decides equality with the AES transform: it returns
false iff `response[i]` equals word `i` of `AES_Encrypt(key, zero IV,
challenge)` for all `i` in 0..3; in particular it returns true for every
response obtained from the genuine encryption by flipping one bit of one
word. -/
theorem IsBadChallenge_decides_equality (aes : AES) (key chal resp : Mem) :
    (IsBadChallenge aes key chal resp = false ↔
      ∀ i, i < 4 → resp i = aes key (fun _ => 0) chal true i) ∧
    (∀ i bit, i < 4 →
      IsBadChallenge aes key chal
        (store (aes key (fun _ => 0) chal true) i
          (aes key (fun _ => 0) chal true i ^^^ 2 ^ bit)) = true) := by
  refine ⟨IsBadChallenge_eq_false aes key chal resp, ?_⟩
  intro i bit hi
  cases hb : IsBadChallenge aes key chal
      (store (aes key (fun _ => 0) chal true) i
        (aes key (fun _ => 0) chal true i ^^^ 2 ^ bit)) with
  | true => rfl
  | false =>
    have h := (IsBadChallenge_eq_false aes key chal _).mp hb i hi
    rw [store_apply, if_pos rfl] at h
    exact absurd h (xor_two_pow_ne _ _)

/-- The globals after `CMD_052D` and its reply depend on the handler's local
array only, never on the `Response` field of the received command. -/
theorem CMD_052D_ignores_command_response (b : Build) (aes : AES) (s : Session)
    (R R' r : Mem) :
    (CMD_052D b aes s R r).session = (CMD_052D b aes s R' r).session ∧
    (CMD_052D b aes s R r).Reply = (CMD_052D b aes s R' r).Reply :=
  ⟨rfl, rfl⟩

theorem CMD_052D_reply_flag (b : Build) (aes : AES) (s : Session) (R r : Mem) :
    (CMD_052D b aes s R r).Reply.bIsLocked = (CMD_052D b aes s R r).session.g_is_locked := rfl

theorem CMD_052D_keeps_keys (b : Build) (aes : AES) (s : Session) (R r : Mem) :
    (CMD_052D b aes s R r).session.g_has_custom_aes_key = s.g_has_custom_aes_key ∧
    (CMD_052D b aes s R r).session.g_custom_aes_key = s.g_custom_aes_key ∧
    (CMD_052D b aes s R r).session.g_default_aes_key = s.g_default_aes_key ∧
    (CMD_052D b aes s R r).session.g_challenge = s.g_challenge :=
  ⟨rfl, rfl, rfl, rfl⟩

/-- Custom key configured: no check is made. -/
theorem CMD_052D_custom (b : Build) (aes : AES) (s : Session) (R r : Mem)
    (h : s.g_has_custom_aes_key = true) :
    (CMD_052D b aes s R r).session.g_is_locked = true ∧
    (CMD_052D b aes s R r).session.g_try_count = (if s.g_try_count < 3 then s.g_try_count else 3) := by
  simp only [CMD_052D, h]
  constructor
  · simp
  · simp

/-- No custom key, the custom-key check fails: locked, the counter keeps its value. -/
theorem CMD_052D_bad_custom (b : Build) (aes : AES) (s : Session) (R r : Mem)
    (h : s.g_has_custom_aes_key = false)
    (hA : IsBadChallenge aes s.g_custom_aes_key s.g_challenge r = true) :
    (CMD_052D b aes s R r).session.g_is_locked = true ∧
    (CMD_052D b aes s R r).session.g_try_count = (if s.g_try_count < 3 then s.g_try_count else 3) := by
  simp only [CMD_052D, h, hA]
  constructor
  · simp
  · simp

/-- No custom key, the custom-key check passes and the default-key check fails:
locked, the counter advances, saturating at 3. -/
theorem CMD_052D_bad_default (b : Build) (aes : AES) (s : Session) (R r : Mem)
    (h : s.g_has_custom_aes_key = false)
    (hA : IsBadChallenge aes s.g_custom_aes_key s.g_challenge r = false)
    (hD : IsBadChallenge aes s.g_default_aes_key s.g_challenge r = true) :
    (CMD_052D b aes s R r).session.g_is_locked = true ∧
    (CMD_052D b aes s R r).session.g_try_count =
      (if s.g_try_count + 1 < 3 then s.g_try_count + 1 else 3) := by
  simp only [CMD_052D, h, hA, hD]
  constructor
  · simp
  · simp

/-- No custom key, both checks pass: unlocked with the counter cleared below the
threshold, locked at the threshold. -/
theorem CMD_052D_both_good (b : Build) (aes : AES) (s : Session) (R r : Mem)
    (h : s.g_has_custom_aes_key = false)
    (hA : IsBadChallenge aes s.g_custom_aes_key s.g_challenge r = false)
    (hD : IsBadChallenge aes s.g_default_aes_key s.g_challenge r = false) :
    (CMD_052D b aes s R r).session.g_is_locked = (if s.g_try_count < 3 then false else true) ∧
    (CMD_052D b aes s R r).session.g_try_count = (if s.g_try_count < 3 then 0 else 3) := by
  simp only [CMD_052D, h, hA, hD]
  constructor
  · simp
  · simp

/-- C7, as stated, fails.  With a custom key configured and no failed attempt,
a command whose `Response` is the genuine custom-key encryption of the
challenge (the handler's local array holding the same words) leaves the device
locked and the reply reports `bIsLocked = true`. -/
theorem CMD_052D_custom_key_counterexample :
    (CMD_052D sampleBuild sampleAes sampleCustomSession
        (genuine sampleAes sampleCustomSession.g_custom_aes_key sampleCustomSession.g_challenge)
        (genuine sampleAes sampleCustomSession.g_custom_aes_key
          sampleCustomSession.g_challenge)).session.g_is_locked = true ∧
    (CMD_052D sampleBuild sampleAes sampleCustomSession
        (genuine sampleAes sampleCustomSession.g_custom_aes_key sampleCustomSession.g_challenge)
        (genuine sampleAes sampleCustomSession.g_custom_aes_key
          sampleCustomSession.g_challenge)).Reply.bIsLocked = true := by
  constructor <;> rfl

/-- C7, amended.  With a custom key configured and `FailedAttemptCount < 3`,
`CMD_052D` makes no check at all (line 370 presets `bIsLocked`): whatever the
command's `Response` and whatever AES computes, afterwards
`g_is_locked = true`, the reply reports `bIsLocked = true`, and
`FailedAttemptCount` is unchanged. -/
theorem CMD_052D_custom_key_always_locks (b : Build) (aes : AES) (s : Session) (R r : Mem)
    (hkey : s.g_has_custom_aes_key = true) (hcount : s.g_try_count < 3) :
    (CMD_052D b aes s R r).session.g_is_locked = true ∧
    (CMD_052D b aes s R r).Reply.bIsLocked = true ∧
    (CMD_052D b aes s R r).session.g_try_count = s.g_try_count := by
  obtain ⟨h1, h2⟩ := CMD_052D_custom b aes s R r hkey
  refine ⟨h1, ?_, ?_⟩
  · rw [CMD_052D_reply_flag, h1]
  · rw [h2, if_pos hcount]

/-- Worked instance of amended C7 on `sampleCustomSession`. -/
theorem CMD_052D_custom_key_always_locks_witness :
    (CMD_052D sampleBuild sampleAes sampleCustomSession (memOf [5, 6, 7, 8])
        (memOf [9, 9, 9, 9])).session.g_is_locked = true ∧
    (CMD_052D sampleBuild sampleAes sampleCustomSession (memOf [5, 6, 7, 8])
        (memOf [9, 9, 9, 9])).Reply.bIsLocked = true ∧
    (CMD_052D sampleBuild sampleAes sampleCustomSession (memOf [5, 6, 7, 8])
        (memOf [9, 9, 9, 9])).session.g_try_count = sampleCustomSession.g_try_count :=
  CMD_052D_custom_key_always_locks sampleBuild sampleAes sampleCustomSession
    (memOf [5, 6, 7, 8]) (memOf [9, 9, 9, 9]) (by decide) (by decide)

/-- C8, as stated, fails.  No custom key, one failed attempt so far, and a
command whose `Response` is the genuine default-key encryption of the
challenge (the handler's local array holding the same words): the custom-key
check of line 374 comes first and rejects it, so the device ends locked, the
reply reports `bIsLocked = true`, and `FailedAttemptCount` stays 1. -/
theorem CMD_052D_default_key_counterexample :
    (CMD_052D sampleBuild sampleAes { sampleSession with g_try_count := 1 }
        (genuine sampleAes sampleSession.g_default_aes_key sampleSession.g_challenge)
        (genuine sampleAes sampleSession.g_default_aes_key
          sampleSession.g_challenge)).session.g_is_locked = true ∧
    (CMD_052D sampleBuild sampleAes { sampleSession with g_try_count := 1 }
        (genuine sampleAes sampleSession.g_default_aes_key sampleSession.g_challenge)
        (genuine sampleAes sampleSession.g_default_aes_key
          sampleSession.g_challenge)).Reply.bIsLocked = true ∧
    (CMD_052D sampleBuild sampleAes { sampleSession with g_try_count := 1 }
        (genuine sampleAes sampleSession.g_default_aes_key sampleSession.g_challenge)
        (genuine sampleAes sampleSession.g_default_aes_key
          sampleSession.g_challenge)).session.g_try_count = 1 := by
  refine ⟨?_, ?_, ?_⟩ <;> decide

/-- C8, amended.  With no custom key configured and `FailedAttemptCount < 3`,
`CMD_052D` ends with `g_is_locked = false` exactly when the response array it
validates equals both `AES_Encrypt(CustomKey, zero IV, Challenge)` (checked
first, line 374) and `AES_Encrypt(DefaultKey, zero IV, Challenge)` (line 380);
in that case the reply reports `bIsLocked = false` and
`FailedAttemptCount = 0`. -/
theorem CMD_052D_unlocks_iff_both_checks (b : Build) (aes : AES) (s : Session) (R r : Mem)
    (hkey : s.g_has_custom_aes_key = false) (hcount : s.g_try_count < 3) :
    ((CMD_052D b aes s R r).session.g_is_locked = false ↔
      (∀ i, i < 4 → r i = genuine aes s.g_custom_aes_key s.g_challenge i) ∧
      (∀ i, i < 4 → r i = genuine aes s.g_default_aes_key s.g_challenge i)) ∧
    ((CMD_052D b aes s R r).session.g_is_locked = false →
      (CMD_052D b aes s R r).Reply.bIsLocked = false ∧
      (CMD_052D b aes s R r).session.g_try_count = 0) := by
  have key : (CMD_052D b aes s R r).session.g_is_locked = false ↔
      IsBadChallenge aes s.g_custom_aes_key s.g_challenge r = false ∧
      IsBadChallenge aes s.g_default_aes_key s.g_challenge r = false := by
    cases hA : IsBadChallenge aes s.g_custom_aes_key s.g_challenge r with
    | true =>
      rw [(CMD_052D_bad_custom b aes s R r hkey hA).1]
      simp
    | false =>
      cases hD : IsBadChallenge aes s.g_default_aes_key s.g_challenge r with
      | true =>
        rw [(CMD_052D_bad_default b aes s R r hkey hA hD).1]
        simp
      | false =>
        rw [(CMD_052D_both_good b aes s R r hkey hA hD).1, if_pos hcount]
        simp
  constructor
  · rw [key, IsBadChallenge_eq_false, IsBadChallenge_eq_false]
    rfl
  · intro h
    obtain ⟨hA, hD⟩ := key.mp h
    refine ⟨by rw [CMD_052D_reply_flag, h], ?_⟩
    rw [(CMD_052D_both_good b aes s R r hkey hA hD).2, if_pos hcount]

/-- Worked instance of amended C8: globals whose custom-key array holds the
same words as the default key, two failed attempts so far, and a validated
array equal to the genuine encryption: the device unlocks and the counter is
cleared. -/
theorem CMD_052D_unlocks_iff_both_checks_witness :
    (CMD_052D sampleBuild sampleAes sampleTwinSession (memOf [5, 6, 7, 8])
        (genuine sampleAes sampleTwinSession.g_default_aes_key
          sampleTwinSession.g_challenge)).session.g_is_locked = false ∧
    (CMD_052D sampleBuild sampleAes sampleTwinSession (memOf [5, 6, 7, 8])
        (genuine sampleAes sampleTwinSession.g_default_aes_key
          sampleTwinSession.g_challenge)).Reply.bIsLocked = false ∧
    (CMD_052D sampleBuild sampleAes sampleTwinSession (memOf [5, 6, 7, 8])
        (genuine sampleAes sampleTwinSession.g_default_aes_key
          sampleTwinSession.g_challenge)).session.g_try_count = 0 :=
  have T := CMD_052D_unlocks_iff_both_checks sampleBuild sampleAes sampleTwinSession
    (memOf [5, 6, 7, 8])
    (genuine sampleAes sampleTwinSession.g_default_aes_key sampleTwinSession.g_challenge)
    (by decide) (by decide)
  have hl := T.1.mpr ⟨by decide, by decide⟩
  ⟨hl, T.2 hl⟩

/-- C9, as stated, fails.  From `FailedAttemptCount = 0` with no custom key,
three consecutive commands whose `Response` (also held by the handler's local
array) is all zero, which differs from the genuine default-key encryption:
every reply reports locked, but the counter is still 0, not 3, because the
custom-key check of line 374 rejects the response before line 380 is
reached. -/
theorem CMD_052D_three_failures_counterexample :
    IsBadChallenge sampleAes sampleSession.g_default_aes_key sampleSession.g_challenge
        (memOf [0, 0, 0, 0]) = true ∧
    (lockRun sampleBuild sampleAes sampleSession
        [(memOf [0, 0, 0, 0], memOf [0, 0, 0, 0]), (memOf [0, 0, 0, 0], memOf [0, 0, 0, 0]),
         (memOf [0, 0, 0, 0], memOf [0, 0, 0, 0])]).1.g_try_count = 0 ∧
    (lockRun sampleBuild sampleAes sampleSession
        [(memOf [0, 0, 0, 0], memOf [0, 0, 0, 0]), (memOf [0, 0, 0, 0], memOf [0, 0, 0, 0]),
         (memOf [0, 0, 0, 0], memOf [0, 0, 0, 0])]).2 = [true, true, true] := by
  refine ⟨?_, ?_, ?_⟩ <;> decide

/-- C9, amended.  Starting from `FailedAttemptCount = 0` with no custom key
configured, after three consecutive `CMD_052D` commands in each of which the
response array the handler validates passes the custom-key check and fails
the default-key check, `FailedAttemptCount = 3` and `g_is_locked = true`,
each of the three replies having reported `bIsLocked = true`; and a fourth
command, whatever it carries, still ends with `g_is_locked = true`, its reply
reporting locked and the counter staying 3. -/
theorem CMD_052D_three_failures_lock (b : Build) (aes : AES) (s : Session)
    (c1 c2 c3 c4 : Mem × Mem)
    (hcount : s.g_try_count = 0) (hkey : s.g_has_custom_aes_key = false)
    (h1 : IsBadChallenge aes s.g_custom_aes_key s.g_challenge c1.2 = false ∧
          IsBadChallenge aes s.g_default_aes_key s.g_challenge c1.2 = true)
    (h2 : IsBadChallenge aes s.g_custom_aes_key s.g_challenge c2.2 = false ∧
          IsBadChallenge aes s.g_default_aes_key s.g_challenge c2.2 = true)
    (h3 : IsBadChallenge aes s.g_custom_aes_key s.g_challenge c3.2 = false ∧
          IsBadChallenge aes s.g_default_aes_key s.g_challenge c3.2 = true) :
    (lockRun b aes s [c1, c2, c3]).1.g_try_count = 3 ∧
    (lockRun b aes s [c1, c2, c3]).1.g_is_locked = true ∧
    (lockRun b aes s [c1, c2, c3]).2 = [true, true, true] ∧
    (CMD_052D b aes (lockRun b aes s [c1, c2, c3]).1 c4.1 c4.2).session.g_is_locked = true ∧
    (CMD_052D b aes (lockRun b aes s [c1, c2, c3]).1 c4.1 c4.2).Reply.bIsLocked = true ∧
    (CMD_052D b aes (lockRun b aes s [c1, c2, c3]).1 c4.1 c4.2).session.g_try_count = 3 := by
  obtain ⟨a1, a2⟩ := CMD_052D_bad_default b aes s c1.1 c1.2 hkey h1.1 h1.2
  rw [hcount] at a2
  obtain ⟨b1, b2⟩ := CMD_052D_bad_default b aes (CMD_052D b aes s c1.1 c1.2).session c2.1 c2.2
    hkey h2.1 h2.2
  rw [a2] at b2
  obtain ⟨d1, d2⟩ := CMD_052D_bad_default b aes
    (CMD_052D b aes (CMD_052D b aes s c1.1 c1.2).session c2.1 c2.2).session c3.1 c3.2
    hkey h3.1 h3.2
  rw [b2] at d2
  have e : (lockRun b aes s [c1, c2, c3]).1 =
      (CMD_052D b aes (CMD_052D b aes (CMD_052D b aes s c1.1 c1.2).session c2.1 c2.2).session
        c3.1 c3.2).session := rfl
  have hsat : ∀ (R r : Mem),
      (CMD_052D b aes (lockRun b aes s [c1, c2, c3]).1 R r).session.g_is_locked = true ∧
      (CMD_052D b aes (lockRun b aes s [c1, c2, c3]).1 R r).session.g_try_count = 3 := by
    intro R r
    rw [e]
    generalize (CMD_052D b aes (CMD_052D b aes (CMD_052D b aes s c1.1 c1.2).session
      c2.1 c2.2).session c3.1 c3.2).session = s3 at d2
    simp only [CMD_052D, d2]
    cases s3.g_has_custom_aes_key <;>
      cases IsBadChallenge aes s3.g_custom_aes_key s3.g_challenge r <;>
      cases IsBadChallenge aes s3.g_default_aes_key s3.g_challenge r <;> simp
  refine ⟨by rw [e]; exact d2, by rw [e]; exact d1, ?_, (hsat _ _).1, ?_, (hsat _ _).2⟩
  · show [_, _, _] = [true, true, true]
    rw [CMD_052D_reply_flag, CMD_052D_reply_flag, CMD_052D_reply_flag, a1, b1, d1]
  · rw [CMD_052D_reply_flag]
    exact (hsat _ _).1

/-- Worked instance of amended C9 on `sampleSession`: three commands for which
the handler's array holds the encryption of the challenge under the all-ones
custom-key array, then a fourth for which it holds the genuine default-key
encryption. -/
theorem CMD_052D_three_failures_lock_witness :
    (lockRun sampleBuild sampleAes sampleSession
        [(memOf [], genuine sampleAes sampleSession.g_custom_aes_key sampleSession.g_challenge),
         (memOf [], genuine sampleAes sampleSession.g_custom_aes_key sampleSession.g_challenge),
         (memOf [], genuine sampleAes sampleSession.g_custom_aes_key
            sampleSession.g_challenge)]).1.g_try_count = 3 ∧
    (CMD_052D sampleBuild sampleAes
        (lockRun sampleBuild sampleAes sampleSession
          [(memOf [], genuine sampleAes sampleSession.g_custom_aes_key sampleSession.g_challenge),
           (memOf [], genuine sampleAes sampleSession.g_custom_aes_key sampleSession.g_challenge),
           (memOf [], genuine sampleAes sampleSession.g_custom_aes_key
              sampleSession.g_challenge)]).1
        (genuine sampleAes sampleSession.g_default_aes_key sampleSession.g_challenge)
        (genuine sampleAes sampleSession.g_default_aes_key
          sampleSession.g_challenge)).session.g_is_locked = true :=
  have T := CMD_052D_three_failures_lock sampleBuild sampleAes sampleSession
    (memOf [], genuine sampleAes sampleSession.g_custom_aes_key sampleSession.g_challenge)
    (memOf [], genuine sampleAes sampleSession.g_custom_aes_key sampleSession.g_challenge)
    (memOf [], genuine sampleAes sampleSession.g_custom_aes_key sampleSession.g_challenge)
    (genuine sampleAes sampleSession.g_default_aes_key sampleSession.g_challenge,
     genuine sampleAes sampleSession.g_default_aes_key sampleSession.g_challenge)
    (by decide) (by decide) (by decide) (by decide) (by decide)
  ⟨T.1, T.2.2.2.1⟩

/-- What `CMD_052D` does to the retry counter, in terms of the array it
validates.  For every state with `FailedAttemptCount` in 0..3 and every
command: the counter afterwards is again in 0..3; if it was 3 it is 3
afterwards and `g_is_locked = true`, whatever the command's `Response` and
whatever the handler's local array holds; and if it is 0 afterwards, either it
was 0 already, or it was below 3, no custom key is configured, both
`IsBadChallenge` checks returned false on the local array `r`, and the device
ends unlocked.  The command's `Response` field `R` takes no part. -/
theorem CMD_052D_try_count_bounds (b : Build) (aes : AES) (s : Session) (R r : Mem)
    (h : s.g_try_count ≤ 3) :
    (CMD_052D b aes s R r).session.g_try_count ≤ 3 ∧
    (s.g_try_count = 3 →
      (CMD_052D b aes s R r).session.g_try_count = 3 ∧
      (CMD_052D b aes s R r).session.g_is_locked = true) ∧
    ((CMD_052D b aes s R r).session.g_try_count = 0 →
      s.g_try_count = 0 ∨
      (s.g_try_count < 3 ∧ s.g_has_custom_aes_key = false ∧
        IsBadChallenge aes s.g_custom_aes_key s.g_challenge r = false ∧
        IsBadChallenge aes s.g_default_aes_key s.g_challenge r = false ∧
        (CMD_052D b aes s R r).session.g_is_locked = false)) := by
  cases hk : s.g_has_custom_aes_key with
  | true =>
    obtain ⟨e1, e2⟩ := CMD_052D_custom b aes s R r hk
    rw [e1, e2]
    refine ⟨by split <;> omega, fun h3 => ⟨by rw [h3]; rfl, rfl⟩, fun h0 => Or.inl ?_⟩
    split at h0 <;> omega
  | false =>
    cases hA : IsBadChallenge aes s.g_custom_aes_key s.g_challenge r with
    | true =>
      obtain ⟨e1, e2⟩ := CMD_052D_bad_custom b aes s R r hk hA
      rw [e1, e2]
      refine ⟨by split <;> omega, fun h3 => ⟨by rw [h3]; rfl, rfl⟩, fun h0 => Or.inl ?_⟩
      split at h0 <;> omega
    | false =>
      cases hD : IsBadChallenge aes s.g_default_aes_key s.g_challenge r with
      | true =>
        obtain ⟨e1, e2⟩ := CMD_052D_bad_default b aes s R r hk hA hD
        rw [e1, e2]
        refine ⟨by split <;> omega, fun h3 => ⟨by rw [h3]; rfl, rfl⟩, fun h0 => ?_⟩
        split at h0 <;> omega
      | false =>
        obtain ⟨e1, e2⟩ := CMD_052D_both_good b aes s R r hk hA hD
        rw [e1, e2]
        refine ⟨by split <;> omega, fun h3 => ⟨by rw [h3]; rfl, by rw [h3]; rfl⟩, fun h0 => ?_⟩
        by_cases hlt : s.g_try_count < 3
        · right
          exact ⟨hlt, rfl, rfl, rfl, by rw [if_pos hlt]⟩
        · rw [if_neg hlt] at h0
          omega

/-- Worked instance: `sampleTwinSession` has two failed attempts and the
counter stays within 0..3; with three failed attempts the device ends locked
even when the local array holds the genuine default-key encryption. -/
theorem CMD_052D_try_count_bounds_instance :
    (CMD_052D sampleBuild sampleAes sampleTwinSession (memOf [5, 6, 7, 8])
        (genuine sampleAes sampleTwinSession.g_default_aes_key
          sampleTwinSession.g_challenge)).session.g_try_count ≤ 3 ∧
    (CMD_052D sampleBuild sampleAes { sampleSession with g_try_count := 3 }
        (genuine sampleAes sampleSession.g_default_aes_key sampleSession.g_challenge)
        (genuine sampleAes sampleSession.g_default_aes_key
          sampleSession.g_challenge)).session.g_is_locked = true :=
  ⟨(CMD_052D_try_count_bounds sampleBuild sampleAes sampleTwinSession (memOf [5, 6, 7, 8])
      (genuine sampleAes sampleTwinSession.g_default_aes_key sampleTwinSession.g_challenge)
      (by decide)).1,
   ((CMD_052D_try_count_bounds sampleBuild sampleAes { sampleSession with g_try_count := 3 }
      (genuine sampleAes sampleSession.g_default_aes_key sampleSession.g_challenge)
      (genuine sampleAes sampleSession.g_default_aes_key sampleSession.g_challenge)
      (by decide)).2.1 rfl).2⟩

/-- The retry counter is cleared without the command's `Response` being
looked at.  With no custom key flagged, the custom-key array holding the same
words as the default key, and `FailedAttemptCount < 3`: when the handler's
local array holds `AES_Encrypt(DefaultKey, zero IV, Challenge)`, the counter
ends 0 and the device unlocked, whatever `Response` the command carries and
whatever `AES_Encrypt` computes. -/
theorem CMD_052D_clears_count_any_response (b : Build) (aes : AES) (s : Session) (R : Mem)
    (hkey : s.g_has_custom_aes_key = false) (hcount : s.g_try_count < 3)
    (htwin : s.g_custom_aes_key = s.g_default_aes_key) :
    (CMD_052D b aes s R (genuine aes s.g_default_aes_key s.g_challenge)).session.g_try_count = 0 ∧
    (CMD_052D b aes s R
      (genuine aes s.g_default_aes_key s.g_challenge)).session.g_is_locked = false := by
  have hD : IsBadChallenge aes s.g_default_aes_key s.g_challenge
      (genuine aes s.g_default_aes_key s.g_challenge) = false :=
    (IsBadChallenge_eq_false aes _ _ _).mpr (fun _ _ => rfl)
  have hA : IsBadChallenge aes s.g_custom_aes_key s.g_challenge
      (genuine aes s.g_default_aes_key s.g_challenge) = false := by
    rw [htwin]
    exact hD
  obtain ⟨e1, e2⟩ := CMD_052D_both_good b aes s R _ hkey hA hD
  rw [e1, e2, if_pos hcount, if_pos hcount]
  exact ⟨rfl, rfl⟩

/-- Moving a cursor forward by at most the distance to the write cursor
shortens that distance by as much. -/
theorem dist_add {cap p w k : Nat} (hp : p < cap) (hw : w < cap)
    (hk : k ≤ (w + cap - p) % cap) :
    (w + cap - (p + k) % cap) % cap + k = (w + cap - p) % cap := by
  have hcap : 0 < cap := by omega
  have hd := dist_eq hp hw
  rw [hd] at hk ⊢
  by_cases h : p + k < cap
  · rw [Nat.mod_eq_of_lt h, dist_eq h hw]
    split at hk <;> split <;> omega
  · have e : (p + k) % cap = p + k - cap := by
      apply mod_wrap (by omega)
      split at hk <;> omega
    have hlt : p + k - cap < cap := by split at hk <;> omega
    rw [e, dist_eq hlt hw]
    split at hk <;> split <;> omega

/-- For a cursor `x` between `r` and `w`, the distance from `r` to `x` plus the
distance from `x` to `w` is the distance from `r` to `w`. -/
theorem advance_eq {cap r x w : Nat} (hr : r < cap) (hx : x < cap) (hw : w < cap)
    (h : (w + cap - x) % cap ≤ (w + cap - r) % cap) :
    (x + cap - r) % cap + (w + cap - x) % cap = (w + cap - r) % cap := by
  rw [dist_eq hr hx, dist_eq hx hw, dist_eq hr hw]
  rw [dist_eq hx hw, dist_eq hr hw] at h
  split at h <;> split at h <;> split <;> omega

theorem pending_eq_dist {cap p w : Nat} (hp : p < cap) (hw : w < cap) (hne : p ≠ w) :
    pending cap p w = (w + cap - p) % cap := by
  rw [dist_eq hp hw]
  unfold pending
  split <;> split <;> omega

/-- How the scan ends, with fuel above the distance to the write cursor. -/
theorem scanLoop_ends (cap : Nat) (buf : Mem) (w : Nat) (hw : w < cap) :
    ∀ (fuel r : Nat), r < cap → (w + cap - r) % cap < fuel →
      ∃ res, scanLoop cap buf w fuel r = some res ∧ res.cursor < cap ∧
        (w + cap - res.cursor) % cap ≤ (w + cap - r) % cap ∧
        ((∃ r1, res = Scan.noFrame r1 ∧ (r1 = w ∨ (buf r1 = 0xAB ∧ pending cap r1 w < 8))) ∨
         (∃ p L, res = Scan.found p L ∧ p ≠ w ∧ buf p = 0xAB ∧ buf ((p + 1) % cap) = 0xCD ∧
            L = pending cap p w ∧ 8 ≤ L)) := by
  intro fuel
  induction fuel with
  | zero => intro r _ h; omega
  | succ k ih =>
    intro r hr hd
    simp only [scanLoop]
    by_cases h0 : r = w
    · rw [if_pos h0]
      exact ⟨_, rfl, hr, Nat.le_refl _, Or.inl ⟨r, rfl, Or.inl h0⟩⟩
    · rw [if_neg h0]
      obtain ⟨r1, h1, h2, h3⟩ :=
        skipLoop_total cap buf w hw cap r hr (Nat.mod_lt _ (by omega))
      obtain ⟨_, hab⟩ := skipLoop_spec cap buf w _ _ _ hr h1
      rw [h1]
      simp only []
      by_cases hne : r1 = w
      · rw [if_pos hne]
        exact ⟨_, rfl, h2, h3, Or.inl ⟨r1, rfl, Or.inl hne⟩⟩
      · rw [if_neg hne]
        have hab1 : buf r1 = 0xAB := by
          rcases hab with hab | hab
          · exact absurd hab hne
          · exact hab
        by_cases hlen : (if r1 < w then w - r1 else w + cap - r1) < 8
        · rw [if_pos hlen]
          exact ⟨_, rfl, h2, h3, Or.inl ⟨r1, rfl, Or.inr ⟨hab1, hlen⟩⟩⟩
        · rw [if_neg hlen]
          by_cases hcd : buf (DMA_INDEX cap r1 1) = 0xCD
          · rw [if_pos hcd]
            exact ⟨_, rfl, h2, h3,
              Or.inr ⟨r1, _, rfl, hne, hab1, hcd, rfl, by
                have : ¬ (pending cap r1 w < 8) := hlen
                omega⟩⟩
          · rw [if_neg hcd]
            have hs := dist_step h2 hw hne
            obtain ⟨res, e1, e2, e3, e4⟩ := ih _ (DMA_INDEX_lt (by omega) r1 1) (by omega)
            exact ⟨res, e1, e2, by omega, e4⟩

/-- C20. The marker scan terminates.  For every ring content and cursors
`r, w < cap` the scanning loop returns; the cursor it leaves is below `cap`
and lies between `r` and `w`: the distance advanced, `(r' - r) mod cap`, is at
most `(w - r) mod cap`, and together with the distance left to `w` it makes up
`(w - r) mod cap`; and the loop ends either with "no frame", the cursor having
caught up with the write cursor or standing on a `0xAB` byte with fewer than
8 bytes pending, or with the cursor on a `0xAB` byte immediately followed
(mod `cap`) by `0xCD`, at least 8 bytes pending. -/
theorem scanLoop_terminates (cap : Nat) (buf : Mem) (r w : Nat) (hr : r < cap) (hw : w < cap) :
    ∃ res, scanLoop cap buf w cap r = some res ∧ res.cursor < cap ∧
      (res.cursor + cap - r) % cap ≤ (w + cap - r) % cap ∧
      (res.cursor + cap - r) % cap + (w + cap - res.cursor) % cap = (w + cap - r) % cap ∧
      ((∃ r1, res = Scan.noFrame r1 ∧ (r1 = w ∨ (buf r1 = 0xAB ∧ pending cap r1 w < 8))) ∨
       (∃ p L, res = Scan.found p L ∧ buf p = 0xAB ∧ buf ((p + 1) % cap) = 0xCD ∧
          L = pending cap p w ∧ 8 ≤ L)) := by
  obtain ⟨res, h1, h2, h3, h4⟩ :=
    scanLoop_ends cap buf w hw cap r hr (Nat.mod_lt _ (by omega))
  have ha := advance_eq hr h2 hw h3
  refine ⟨res, h1, h2, by omega, ha, ?_⟩
  rcases h4 with h4 | ⟨p, L, e, _, rest⟩
  · exact Or.inl h4
  · exact Or.inr ⟨p, L, e, rest⟩

/-- Worked instance of C20 on the sample ring: from cursor 10 with the write
cursor at 6 the scan stops on the marker at 12. -/
theorem scanLoop_terminates_witness :
    ∃ res, scanLoop 16 sampleRing 6 16 10 = some res ∧ res.cursor < 16 ∧
      (res.cursor + 16 - 10) % 16 ≤ (6 + 16 - 10) % 16 ∧
      (res.cursor + 16 - 10) % 16 + (6 + 16 - res.cursor) % 16 = (6 + 16 - 10) % 16 ∧
      ((∃ r1, res = Scan.noFrame r1 ∧
          (r1 = 6 ∨ (sampleRing r1 = 0xAB ∧ pending 16 r1 6 < 8))) ∨
       (∃ p L, res = Scan.found p L ∧ sampleRing p = 0xAB ∧ sampleRing ((p + 1) % 16) = 0xCD ∧
          L = pending 16 p 6 ∧ 8 ≤ L)) :=
  scanLoop_terminates 16 sampleRing 10 6 (by decide) (by decide)

/-- Whenever the part after the scan returns, the cursor it leaves is the write
cursor (discard), the marker position (incomplete frame), or the end of a
complete frame that was pending in full. -/
theorem extract_cursor (cap : Nat) (crc : List Nat → Nat) (w : Nat) (st : UartState) (L : Nat)
    (st' : UartState) (b : Bool) (h : extract cap crc w st L = some (st', b)) :
    st'.g_uart_write_index = w ∨ st'.g_uart_write_index = st.g_uart_write_index ∨
      (declaredSize cap st.UART_DMA_Buffer st.g_uart_write_index + 8 ≤ L ∧
        st'.g_uart_write_index =
          (st.g_uart_write_index +
            declaredSize cap st.UART_DMA_Buffer st.g_uart_write_index + 8) % cap) := by
  unfold extract at h
  simp only [extract_size] at h
  by_cases h1 : declaredSize cap st.UART_DMA_Buffer st.g_uart_write_index + 8 > cap
  · rw [if_pos h1] at h
    simp only [Option.some.injEq, Prod.mk.injEq] at h
    left
    rw [← h.1]
  · rw [if_neg h1] at h
    by_cases h2 : L < declaredSize cap st.UART_DMA_Buffer st.g_uart_write_index + 8
    · rw [if_pos h2] at h
      simp only [Option.some.injEq, Prod.mk.injEq] at h
      right; left
      rw [← h.1]
    · rw [if_neg h2] at h
      split at h
      · simp only [Option.some.injEq, Prod.mk.injEq] at h
        left
        rw [← h.1]
      · split at h
        · exact absurd h (by simp)
        · simp only [Option.some.injEq, Prod.mk.injEq] at h
          right; right
          refine ⟨by omega, ?_⟩
          rw [← h.1]
          show DMA_INDEX cap _ 2 = _
          rw [index_nest, index_mod]
          congr 1
          omega

/-- With a ring of at most 263 bytes the part after the scan always returns. -/
theorem extract_returns (cap : Nat) (crc : List Nat → Nat) (w : Nat) (st : UartState) (L : Nat)
    (hL : L < cap) (hcap : cap ≤ 263) :
    ∃ st' b, extract cap crc w st L = some (st', b) := by
  by_cases h1 : cap < declaredSize cap st.UART_DMA_Buffer st.g_uart_write_index + 8
  · exact ⟨_, _, extract_oversize cap crc w st L h1⟩
  · by_cases h2 : L < declaredSize cap st.UART_DMA_Buffer st.g_uart_write_index + 8
    · exact ⟨_, _, extract_incomplete cap crc w st L (by omega) h2⟩
    · by_cases h3 : st.UART_DMA_Buffer ((st.g_uart_write_index + 4 +
              declaredSize cap st.UART_DMA_Buffer st.g_uart_write_index + 2) % cap) = 0xDC ∧
          st.UART_DMA_Buffer ((st.g_uart_write_index + 4 +
              declaredSize cap st.UART_DMA_Buffer st.g_uart_write_index + 3) % cap) = 0xBA
      · exact ⟨_, _, extract_complete cap crc w st L hL (by omega) (by omega) h3⟩
      · exact ⟨_, _, extract_bad_tail cap crc w st L (by omega) (by omega) h3⟩

/-- C18. The read cursor never passes the write cursor.  For every ring
content and cursors `r, w < cap`: whenever `UART_IsCommandAvailable` returns,
with either result, the new read cursor `r'` is below `cap` and
`(r' - r) mod cap ≤ (w - r) mod cap`; and the call does return for every ring
of at most 263 bytes (every frame then fits the 256-byte working buffer). -/
theorem UART_IsCommandAvailable_cursor_in_interval (cap : Nat) (crc : List Nat → Nat) (w : Nat)
    (st : UartState) (hr : st.g_uart_write_index < cap) (hw : w < cap) :
    (∀ st' b, UART_IsCommandAvailable cap crc w st = some (st', b) →
      st'.g_uart_write_index < cap ∧
      (st'.g_uart_write_index + cap - st.g_uart_write_index) % cap ≤
        (w + cap - st.g_uart_write_index) % cap) ∧
    (cap ≤ 263 → ∃ st' b, UART_IsCommandAvailable cap crc w st = some (st', b)) := by
  have hcap : 0 < cap := by omega
  obtain ⟨res, h1, h2, h3, h4⟩ :=
    scanLoop_ends cap st.UART_DMA_Buffer w hw cap _ hr (Nat.mod_lt _ hcap)
  have key : ∀ x, x < cap →
      (w + cap - x) % cap ≤ (w + cap - st.g_uart_write_index) % cap →
      (x + cap - st.g_uart_write_index) % cap ≤ (w + cap - st.g_uart_write_index) % cap := by
    intro x hx hle
    have := advance_eq hr hx hw hle
    omega
  rcases h4 with ⟨r1, e, _⟩ | ⟨p, L, e, hne, _, _, hL, h8⟩
  · subst e
    constructor
    · intro st' b h
      unfold UART_IsCommandAvailable at h
      rw [h1] at h
      simp only [Option.some.injEq, Prod.mk.injEq] at h
      rw [← h.1]
      exact ⟨h2, key _ h2 h3⟩
    · intro _
      unfold UART_IsCommandAvailable
      rw [h1]
      exact ⟨_, _, rfl⟩
  · subst e
    have hp : p < cap := h2
    have hd : pending cap p w = (w + cap - p) % cap := pending_eq_dist hp hw hne
    have hLlt : L < cap := by rw [hL]; exact pending_lt hp hw hne
    rw [UART_IsCommandAvailable_of_found cap crc w st p L h1]
    constructor
    · intro st' b h
      have hc := extract_cursor cap crc w _ L st' b h
      dsimp only at hc
      rcases hc with e | e | ⟨e1, e2⟩
      · rw [e]
        have hz : (w + cap - w) % cap = 0 := by
          have : w + cap - w = cap := by omega
          rw [this, Nat.mod_self]
        exact ⟨hw, key w hw (by omega)⟩
      · rw [e]
        exact ⟨hp, key p hp h3⟩
      · rw [e2]
        have hx : (p + declaredSize cap st.UART_DMA_Buffer p + 8) % cap < cap :=
          Nat.mod_lt _ hcap
        refine ⟨hx, key _ hx ?_⟩
        have hk : declaredSize cap st.UART_DMA_Buffer p + 8 ≤ (w + cap - p) % cap := by
          have : declaredSize cap st.UART_DMA_Buffer p + 8 ≤ L := e1
          omega
        have hda := dist_add hp hw hk
        have ea : p + (declaredSize cap st.UART_DMA_Buffer p + 8) =
            p + declaredSize cap st.UART_DMA_Buffer p + 8 := by omega
        rw [ea] at hda
        change (w + cap - p) % cap ≤ _ at h3
        omega
    · intro hc
      exact extract_returns cap crc w _ L hLlt hc

/-- Worked instance of C18 on `sampleState` with the write cursor at 6. -/
theorem UART_IsCommandAvailable_cursor_in_interval_witness :
    (∀ st' b, UART_IsCommandAvailable 16 sampleCrc 6 sampleState = some (st', b) →
      st'.g_uart_write_index < 16 ∧
      (st'.g_uart_write_index + 16 - sampleState.g_uart_write_index) % 16 ≤
        (6 + 16 - sampleState.g_uart_write_index) % 16) ∧
    (∃ st' b, UART_IsCommandAvailable 16 sampleCrc 6 sampleState = some (st', b)) :=
  ⟨(UART_IsCommandAvailable_cursor_in_interval 16 sampleCrc 6 sampleState
      (by decide) (by decide)).1,
   (UART_IsCommandAvailable_cursor_in_interval 16 sampleCrc 6 sampleState
      (by decide) (by decide)).2 (by decide)⟩

/-! ## Consumption of a frame -/

/-- The zeroing of lines 503-510 clears the span of `n` bytes from `p`. -/
theorem zeroConsumed_inside (cap : Nat) (ring : Mem) (p n i : Nat)
    (hp : p < cap) (hn : n < cap) (hi : i < n) :
    zeroConsumed cap ring p ((p + n) % cap) ((p + i) % cap) = 0 := by
  unfold zeroConsumed
  by_cases hw : p + n < cap
  · have e1 : (p + n) % cap = p + n := Nat.mod_eq_of_lt hw
    have e2 : (p + i) % cap = p + i := Nat.mod_eq_of_lt (by omega)
    rw [e1, e2, if_neg (by omega), memset_apply, if_pos (by omega)]
  · have e1 : (p + n) % cap = p + n - cap := mod_wrap (by omega) (by omega)
    rw [e1, if_pos (by omega)]
    simp only [memset_apply]
    by_cases hi2 : p + i < cap
    · have e2 : (p + i) % cap = p + i := Nat.mod_eq_of_lt hi2
      rw [e2]
      split
      · rfl
      · rw [if_pos (by omega)]
    · have e2 : (p + i) % cap = p + i - cap := mod_wrap (by omega) (by omega)
      rw [e2, if_pos (by omega)]

/-- The zeroing of lines 503-510 leaves every byte outside the span alone. -/
theorem zeroConsumed_outside (cap : Nat) (ring : Mem) (p n j : Nat)
    (hp : p < cap) (hn : n < cap) (hj : ∀ i, i < n → j ≠ (p + i) % cap) :
    zeroConsumed cap ring p ((p + n) % cap) j = ring j := by
  unfold zeroConsumed
  by_cases hw : p + n < cap
  · have e1 : (p + n) % cap = p + n := Nat.mod_eq_of_lt hw
    rw [e1, if_neg (by omega), memset_apply]
    by_cases hin : p ≤ j ∧ j < p + (p + n - p)
    · exfalso
      have := hj (j - p) (by omega)
      rw [Nat.mod_eq_of_lt (by omega)] at this
      omega
    · rw [if_neg hin]
  · have e1 : (p + n) % cap = p + n - cap := mod_wrap (by omega) (by omega)
    rw [e1, if_pos (by omega)]
    simp only [memset_apply]
    by_cases hlow : 0 ≤ j ∧ j < 0 + (p + n - cap)
    · exfalso
      have := hj (j + cap - p) (by omega)
      have e2 : (p + (j + cap - p)) % cap = j := by
        have : p + (j + cap - p) = j + cap := by omega
        rw [this, Nat.add_mod_right]
        exact Nat.mod_eq_of_lt (by omega)
      rw [e2] at this
      exact this rfl
    · rw [if_neg hlow]
      by_cases hhigh : p ≤ j ∧ j < p + (cap - p)
      · exfalso
        have := hj (j - p) (by omega)
        rw [Nat.mod_eq_of_lt (by omega)] at this
        omega
      · rw [if_neg hhigh]

/-- C17. Consumption is exact, also on CRC failure.  When the scan finds the
marker at `p`, the declared length `Size` has `Size + 8 ≤` the bytes pending
from `p` and the end marker is in place, the call returns (with whatever
result the checksum gives) and afterwards every ring byte at `(p + i) % cap`
for `i < Size + 8` is zero, every other ring byte is unchanged, the read
cursor is `(p + Size + 8) % cap`, and the bytes pending from the new cursor
are those that were pending from `p` less the `Size + 8` consumed.
(`hfit` as in C1.) -/
theorem UART_IsCommandAvailable_consumes_exactly (cap : Nat) (crc : List Nat → Nat) (w : Nat)
    (st : UartState) (p L : Nat)
    (hr : st.g_uart_write_index < cap) (hw : w < cap)
    (hscan : scanLoop cap st.UART_DMA_Buffer w cap st.g_uart_write_index =
      some (Scan.found p L))
    (hlen : declaredSize cap st.UART_DMA_Buffer p + 8 ≤ pending cap p w)
    (hfit : declaredSize cap st.UART_DMA_Buffer p + 2 ≤ 256)
    (htail : st.UART_DMA_Buffer ((p + 4 + declaredSize cap st.UART_DMA_Buffer p + 2) % cap) = 0xDC ∧
      st.UART_DMA_Buffer ((p + 4 + declaredSize cap st.UART_DMA_Buffer p + 3) % cap) = 0xBA) :
    ∃ st' b, UART_IsCommandAvailable cap crc w st = some (st', b) ∧
      (b = true ↔
        crc (bytes st'.UART_Command (declaredSize cap st.UART_DMA_Buffer p)) =
          le16 (st'.UART_Command (declaredSize cap st.UART_DMA_Buffer p))
               (st'.UART_Command (declaredSize cap st.UART_DMA_Buffer p + 1))) ∧
      (∀ i, i < declaredSize cap st.UART_DMA_Buffer p + 8 →
        st'.UART_DMA_Buffer ((p + i) % cap) = 0) ∧
      (∀ j, (∀ i, i < declaredSize cap st.UART_DMA_Buffer p + 8 → j ≠ (p + i) % cap) →
        st'.UART_DMA_Buffer j = st.UART_DMA_Buffer j) ∧
      st'.g_uart_write_index = (p + declaredSize cap st.UART_DMA_Buffer p + 8) % cap ∧
      (w + cap - st'.g_uart_write_index) % cap + (declaredSize cap st.UART_DMA_Buffer p + 8) =
        pending cap p w := by
  obtain ⟨hp, hne, _, _, hL, _⟩ := scanLoop_found cap _ w _ _ _ _ hr hscan
  have hlt : L < cap := by rw [hL]; exact pending_lt hp hw hne
  have hpl : pending cap p w < cap := pending_lt hp hw hne
  have hex := extract_complete cap crc w { st with g_uart_write_index := p } L hlt
    (by rw [hL]; exact hlen) hfit htail
  obtain ⟨_, _, h3, h4⟩ := completeResult_spec cap crc { st with g_uart_write_index := p }
  have e : p + declaredSize cap st.UART_DMA_Buffer p + 8 =
      p + (declaredSize cap st.UART_DMA_Buffer p + 8) := by omega
  refine ⟨_, _, ?_, h3, ?_, ?_, h4, ?_⟩
  · rw [UART_IsCommandAvailable_of_found cap crc w st p L hscan, hex]
  · intro i hi
    show zeroConsumed cap st.UART_DMA_Buffer p
      ((p + declaredSize cap st.UART_DMA_Buffer p + 8) % cap) ((p + i) % cap) = 0
    rw [e]
    exact zeroConsumed_inside cap _ p _ i hp (by omega) hi
  · intro j hj
    show zeroConsumed cap st.UART_DMA_Buffer p
      ((p + declaredSize cap st.UART_DMA_Buffer p + 8) % cap) j = _
    rw [e]
    exact zeroConsumed_outside cap _ p _ j hp (by omega) hj
  · show (w + cap - (p + declaredSize cap st.UART_DMA_Buffer p + 8) % cap) % cap + _ = _
    rw [e, pending_eq_dist hp hw hne]
    exact dist_add hp hw (by rw [← pending_eq_dist hp hw hne]; exact hlen)

/-- Worked instance of C17 on `sampleState` with the write cursor at 6: the ten
frame bytes at 12..15 and 0..5 are cleared, the stray byte at 11 stays. -/
theorem UART_IsCommandAvailable_consumes_exactly_witness :
    ∃ st' b, UART_IsCommandAvailable 16 sampleCrc 6 sampleState = some (st', b) ∧
      (b = true ↔
        sampleCrc (bytes st'.UART_Command (declaredSize 16 sampleState.UART_DMA_Buffer 12)) =
          le16 (st'.UART_Command (declaredSize 16 sampleState.UART_DMA_Buffer 12))
               (st'.UART_Command (declaredSize 16 sampleState.UART_DMA_Buffer 12 + 1))) ∧
      (∀ i, i < declaredSize 16 sampleState.UART_DMA_Buffer 12 + 8 →
        st'.UART_DMA_Buffer ((12 + i) % 16) = 0) ∧
      (∀ j, (∀ i, i < declaredSize 16 sampleState.UART_DMA_Buffer 12 + 8 → j ≠ (12 + i) % 16) →
        st'.UART_DMA_Buffer j = sampleState.UART_DMA_Buffer j) ∧
      st'.g_uart_write_index = (12 + declaredSize 16 sampleState.UART_DMA_Buffer 12 + 8) % 16 ∧
      (6 + 16 - st'.g_uart_write_index) % 16 +
          (declaredSize 16 sampleState.UART_DMA_Buffer 12 + 8) = pending 16 12 6 :=
  UART_IsCommandAvailable_consumes_exactly 16 sampleCrc 6 sampleState 12 10
    (by decide) (by decide) (by decide) (by decide) (by decide) (by decide)

/-! ## Codec mode toggle -/

theorem le16_bytes (lo hi : Nat) (hlo : lo < 256) (hhi : hi < 256) :
    le16 lo hi = lo + 256 * hi := by
  unfold le16
  have h2 : lo < 2 ^ 8 := by omega
  rw [Nat.shiftLeft_eq, Nat.mul_comm, ← Nat.mul_add_lt_is_or h2]
  omega

/-- C19. Codec mode toggle and handshake recognition.  After
`UART_IsCommandAvailable` has copied out a complete frame with a good end
marker (for every `Size`, so also for `Size ≥ 2`): with `raw` the 16-bit
identifier as received at the front of the payload, `IsEncrypted` is false if
`raw = 0x0514`, true if `raw = 0x6902`, and unchanged otherwise; `0x6902` is
`0x0514` XORed bytewise with the first two key bytes; and in both of the first
two cases the identifier left at the front of the working buffer is `0x0514`,
whatever `IsEncrypted` was before.  (`hfit` as in C1; `hb0`, `hb1`: the two
identifier bytes are bytes.) -/
theorem UART_IsCommandAvailable_mode_toggle (cap : Nat) (crc : List Nat → Nat) (w : Nat)
    (st : UartState) (p L : Nat)
    (hr : st.g_uart_write_index < cap) (hw : w < cap)
    (hscan : scanLoop cap st.UART_DMA_Buffer w cap st.g_uart_write_index =
      some (Scan.found p L))
    (hlen : declaredSize cap st.UART_DMA_Buffer p + 8 ≤ pending cap p w)
    (hfit : declaredSize cap st.UART_DMA_Buffer p + 2 ≤ 256)
    (htail : st.UART_DMA_Buffer ((p + 4 + declaredSize cap st.UART_DMA_Buffer p + 2) % cap) = 0xDC ∧
      st.UART_DMA_Buffer ((p + 4 + declaredSize cap st.UART_DMA_Buffer p + 3) % cap) = 0xBA)
    (hb0 : st.UART_DMA_Buffer ((p + 4) % cap) < 256)
    (hb1 : st.UART_DMA_Buffer ((p + 5) % cap) < 256) :
    ∃ st' b, UART_IsCommandAvailable cap crc w st = some (st', b) ∧
      (le16 (st.UART_DMA_Buffer ((p + 4) % cap)) (st.UART_DMA_Buffer ((p + 5) % cap)) = 0x0514 →
        st'.bIsEncrypted = false ∧ le16 (st'.UART_Command 0) (st'.UART_Command 1) = 0x0514) ∧
      (le16 (st.UART_DMA_Buffer ((p + 4) % cap)) (st.UART_DMA_Buffer ((p + 5) % cap)) = 0x6902 →
        st'.bIsEncrypted = true ∧ le16 (st'.UART_Command 0) (st'.UART_Command 1) = 0x0514) ∧
      (le16 (st.UART_DMA_Buffer ((p + 4) % cap)) (st.UART_DMA_Buffer ((p + 5) % cap)) ≠ 0x0514 →
        le16 (st.UART_DMA_Buffer ((p + 4) % cap)) (st.UART_DMA_Buffer ((p + 5) % cap)) ≠ 0x6902 →
        st'.bIsEncrypted = st.bIsEncrypted) ∧
      le16 (0x14 ^^^ Obfuscation.getD 0 0) (0x05 ^^^ Obfuscation.getD 1 0) = 0x6902 := by
  obtain ⟨st', b, hcall, henc, hcmd, _⟩ :=
    UART_IsCommandAvailable_complete_frame_aux cap crc w st p L hr hw hscan hlen hfit htail
  have h0 := hcmd 0 (by omega)
  have h1 := hcmd 1 (by omega)
  rw [Nat.add_zero] at h0
  have e5 : p + 4 + 1 = p + 5 := by omega
  rw [e5] at h1
  have hraw := le16_bytes _ _ hb0 hb1
  refine ⟨st', b, hcall, ?_, ?_, ?_, by decide⟩
  · intro h
    have hf : st'.bIsEncrypted = false := by
      rw [henc, h]
      rfl
    rw [hf] at h0 h1
    simp only [Bool.false_eq_true, if_false] at h0 h1
    rw [h0, h1]
    exact ⟨hf, h⟩
  · intro h
    have ht : st'.bIsEncrypted = true := by
      rw [henc, h]
      rfl
    rw [ht] at h0 h1
    simp only [if_true] at h0 h1
    rw [hraw] at h
    have e0 : st.UART_DMA_Buffer ((p + 4) % cap) = 0x02 := by omega
    have e1 : st.UART_DMA_Buffer ((p + 5) % cap) = 0x69 := by omega
    rw [h0, h1, e0, e1]
    exact ⟨ht, by decide⟩
  · intro n1 n2
    rw [henc]
    unfold toggle
    simp only []
    rw [if_neg n2, if_neg n1]

/-- Worked instance of C19: the plain-text handshake frame of
`sampleHandshakeState` switches the codec from encrypted to plain and leaves
`0x0514` at the front of the working buffer. -/
theorem UART_IsCommandAvailable_mode_toggle_witness :
    ∃ st' b, UART_IsCommandAvailable 16 sampleCrc 10 sampleHandshakeState = some (st', b) ∧
      st'.bIsEncrypted = false ∧ le16 (st'.UART_Command 0) (st'.UART_Command 1) = 0x0514 := by
  obtain ⟨st', b, h, h1, _⟩ :=
    UART_IsCommandAvailable_mode_toggle 16 sampleCrc 10 sampleHandshakeState 0 10
      (by decide) (by decide) (by decide) (by decide) (by decide) (by decide)
      (by decide) (by decide)
  exact ⟨st', b, h, h1 (by decide)⟩

/-! ## Reply wire format -/

theorem SendReply_wire_length (enc : Bool) (P : Mem) (n : Nat) :
    (SendReply enc P n).wire.length = n + 8 := by
  cases enc <;>
    simp only [SendReply, List.length_append, List.length_cons, List.length_nil, bytes_length,
      if_true, Bool.false_eq_true, if_false] <;> omega

/-- C16. Reply wire format.  For every reply memory `P`, length `n` and codec
mode, `SendReply` transmits exactly `n + 8` bytes: `AB CD`, the two
little-endian bytes of `n` (which read back as `n` for `n < 65536`), then the
`n` payload bytes, byte `i` XORed with `Obfuscation[i mod 16]` when
`IsEncrypted` and unchanged otherwise, then the two footer bytes
`Obfuscation[(n + k) mod 16] XOR 0xFF` (`k = 0, 1`) when `IsEncrypted` and
`FF FF` otherwise, then `DC BA`; markers and length are the same in both
modes. -/
theorem SendReply_wire_format (enc : Bool) (P : Mem) (n : Nat) :
    (SendReply enc P n).wire =
      [0xAB, 0xCD, n % 256, n / 256 % 256] ++
        (List.range n).map
          (fun i => if enc then P i ^^^ Obfuscation.getD (i % 16) 0 else P i) ++
        [if enc then Obfuscation.getD ((n + 0) % 16) 0 ^^^ 0xFF else 0xFF,
         if enc then Obfuscation.getD ((n + 1) % 16) 0 ^^^ 0xFF else 0xFF, 0xDC, 0xBA] ∧
    (SendReply enc P n).wire.length = n + 8 ∧
    (n < 65536 → le16 (n % 256) (n / 256 % 256) = n) ∧
    (SendReply true P n).wire.take 4 = (SendReply false P n).wire.take 4 ∧
    (SendReply true P n).wire.drop (n + 6) = [0xDC, 0xBA] ∧
    (SendReply false P n).wire.drop (n + 6) = [0xDC, 0xBA] := by
  have hw : (SendReply enc P n).wire =
      [0xAB, 0xCD, n % 256, n / 256 % 256] ++
        (List.range n).map
          (fun i => if enc then P i ^^^ Obfuscation.getD (i % 16) 0 else P i) ++
        [if enc then Obfuscation.getD ((n + 0) % 16) 0 ^^^ 0xFF else 0xFF,
         if enc then Obfuscation.getD ((n + 1) % 16) 0 ^^^ 0xFF else 0xFF, 0xDC, 0xBA] := by
    cases enc with
    | false => simp [SendReply, bytes]
    | true =>
      simp only [SendReply, if_true, bytes]
      congr 2
      apply List.map_congr_left
      intro i hi
      rw [xorLoop_apply, if_pos (List.mem_range.mp hi)]
  have hdrop : ∀ e, (SendReply e P n).wire.drop (n + 6) = [0xDC, 0xBA] := by
    intro e
    have hl : ([0xAB, 0xCD, n % 256, n / 256 % 256] ++ bytes (SendReply e P n).pReply n).length
        = n + 4 := by
      rw [List.length_append, bytes_length]
      simp
      omega
    have e6 : n + 6 = (n + 4) + 2 := by omega
    cases e with
    | false =>
      simp only [SendReply, Bool.false_eq_true, if_false] at hl ⊢
      rw [e6, ← hl, List.drop_append]
      rfl
    | true =>
      simp only [SendReply, if_true] at hl ⊢
      rw [e6, ← hl, List.drop_append]
      rfl
  refine ⟨hw, ?_, le16_split n, ?_, hdrop true, hdrop false⟩
  · rw [hw]
    simp only [List.length_append, List.length_cons, List.length_nil, List.length_map,
      List.length_range]
    omega
  · simp [SendReply]

/-! ## Properties of the memory handlers -/

theorem reply051B_header (stack : Mem) (Offset Size : Nat) :
    reply051B stack Offset Size 0 = 0x1C ∧ reply051B stack Offset Size 1 = 0x05 ∧
    reply051B stack Offset Size 2 = (Size + 4) % 256 ∧
    reply051B stack Offset Size 3 = (Size + 4) / 256 % 256 ∧
    reply051B stack Offset Size 4 = Offset % 256 ∧
    reply051B stack Offset Size 5 = Offset / 256 % 256 ∧
    reply051B stack Offset Size 6 = Size ∧ reply051B stack Offset Size 7 = 0 := by
  simp [reply051B, store_apply, memset_apply]

theorem reply051B_data (stack : Mem) (Offset Size i : Nat) (hi : i < 128) :
    reply051B stack Offset Size (8 + i) = 0 := by
  have h1 : 8 + i < 136 := by omega
  simp only [reply051B, store_apply, memset_apply]
  repeat rw [if_neg (show ¬ (8 + i = _) by omega)]
  exact if_pos (by omega)

theorem reply051B_behind (stack : Mem) (Offset Size i : Nat) (hi : 136 ≤ i) :
    reply051B stack Offset Size i = stack i := by
  simp only [reply051B, store_apply, memset_apply]
  repeat rw [if_neg (show ¬ (i = _) by omega)]
  exact if_neg (by omega)

/-- C14. Stale timestamps are silently ignored.  For every `0x051B` or `0x051D`
command whose `Timestamp` field differs from the session `Timestamp`, the
handler returns at once: it makes no call (no bytes sent, no storage read,
write or reinitialisation) and leaves the whole state, globals, codec mode
and storage, as it was. -/
theorem stale_timestamp_ignored (b : Build) (boardInit : Session → Mem → Session) (d : Device)
    (pBuffer stack atPCmd : Mem) (h : le32 pBuffer 8 ≠ d.session.Timestamp) :
    (CMD_051B b d pBuffer stack).events = [] ∧
    (CMD_051B b d pBuffer stack).device = d ∧
    (CMD_051D b boardInit d pBuffer atPCmd).events = [] ∧
    (CMD_051D b boardInit d pBuffer atPCmd).device = d := by
  simp [CMD_051B, CMD_051D, h]

/-- Worked instance of C14: the sample commands carry timestamp 0, the session
timestamp is 7. -/
theorem stale_timestamp_ignored_witness :
    (CMD_051B sampleBuild { sampleDevice with session := { sampleSession with Timestamp := 7 } }
        sampleRead (fun _ => 0)).events = [] ∧
    (CMD_051B sampleBuild { sampleDevice with session := { sampleSession with Timestamp := 7 } }
        sampleRead (fun _ => 0)).device =
      { sampleDevice with session := { sampleSession with Timestamp := 7 } } ∧
    (CMD_051D sampleBuild sampleBoardInit
        { sampleDevice with session := { sampleSession with Timestamp := 7 } }
        sampleWrite (fun _ => 0)).events = [] ∧
    (CMD_051D sampleBuild sampleBoardInit
        { sampleDevice with session := { sampleSession with Timestamp := 7 } }
        sampleWrite (fun _ => 0)).device =
      { sampleDevice with session := { sampleSession with Timestamp := 7 } } :=
  stale_timestamp_ignored sampleBuild sampleBoardInit
    { sampleDevice with session := { sampleSession with Timestamp := 7 } }
    sampleRead (fun _ => 0) (fun _ => 0) (by decide)

/-- C13. Memory read returns the requested bytes.  For every `0x051B` command
whose `Timestamp` equals the session `Timestamp`, with the device unlocked and
`Size ≤ 128`, `CMD_051B` makes one storage read of `Size` bytes at `Offset`
and sends exactly one reply, of `Size + 8` payload bytes (inside the 136-byte
structure, `Size + 16` bytes on the wire): identifier `0x051C`, inner header
size `Size + 4`, `Offset` and `Size` echoed, padding zero, and data byte `i`
equal to storage byte `Offset + i` for `i < Size`; in plain mode the payload on
the wire is these bytes. -/
theorem CMD_051B_returns_requested_bytes (b : Build) (d : Device) (pBuffer stack : Mem)
    (hts : le32 pBuffer 8 = d.session.Timestamp)
    (hunl : d.session.g_is_locked = false)
    (hsz : pBuffer 6 % 256 ≤ 128) :
    ∃ Reply : Mem,
      (CMD_051B b d pBuffer stack).events =
        [Event.eepromRead (le16 (pBuffer 4) (pBuffer 5)) (pBuffer 6 % 256),
         Event.reply (SendReply d.bIsEncrypted Reply (pBuffer 6 % 256 + 8)).wire] ∧
      pBuffer 6 % 256 + 8 ≤ 136 ∧
      (SendReply d.bIsEncrypted Reply (pBuffer 6 % 256 + 8)).wire.length = pBuffer 6 % 256 + 16 ∧
      (d.bIsEncrypted = false →
        ((SendReply d.bIsEncrypted Reply (pBuffer 6 % 256 + 8)).wire.drop 4).take
          (pBuffer 6 % 256 + 8) = bytes Reply (pBuffer 6 % 256 + 8)) ∧
      le16 (Reply 0) (Reply 1) = 0x051C ∧
      le16 (Reply 2) (Reply 3) = pBuffer 6 % 256 + 4 ∧
      le16 (Reply 4) (Reply 5) = le16 (pBuffer 4) (pBuffer 5) ∧
      Reply 6 = pBuffer 6 % 256 ∧ Reply 7 = 0 ∧
      (∀ i, i < pBuffer 6 % 256 → Reply (8 + i) = d.eeprom (le16 (pBuffer 4) (pBuffer 5) + i)) := by
  obtain ⟨r0, r1, r2, r3, r4, r5, r6, r7⟩ :=
    reply051B_header stack (le16 (pBuffer 4) (pBuffer 5)) (pBuffer 6 % 256)
  have hlock : (if (reloadCountdowns b d.session).g_has_custom_aes_key = true then
      (reloadCountdowns b d.session).g_is_locked else false) = false := by
    show (if d.session.g_has_custom_aes_key = true then d.session.g_is_locked else false) = false
    rw [hunl]
    split <;> rfl
  have hO : le16 (pBuffer 4) (pBuffer 5) < 65536 := Nat.mod_lt _ (by omega)
  refine ⟨EEPROM_ReadBuffer d.eeprom (le16 (pBuffer 4) (pBuffer 5))
      (reply051B stack (le16 (pBuffer 4) (pBuffer 5)) (pBuffer 6 % 256)) 8 (pBuffer 6 % 256),
    ?_, by omega, ?_, ?_, ?_, ?_, ?_, ?_, ?_, ?_⟩
  · simp only [CMD_051B]
    rw [if_neg (by rw [hts]; exact fun h => h rfl)]
    simp only [hlock]
    rfl
  · rw [SendReply_wire_length]
  · intro he
    rw [SendReply_wire_body, he]
    rfl
  · simp only [EEPROM_ReadBuffer, memmove_apply]
    rw [if_neg (by omega), if_neg (by omega), r0, r1]
    decide
  · simp only [EEPROM_ReadBuffer, memmove_apply]
    rw [if_neg (by omega), if_neg (by omega), r2, r3]
    exact le16_split _ (by omega)
  · simp only [EEPROM_ReadBuffer, memmove_apply]
    rw [if_neg (by omega), if_neg (by omega), r4, r5]
    exact le16_split _ hO
  · simp only [EEPROM_ReadBuffer, memmove_apply]
    rw [if_neg (by omega), r6]
  · simp only [EEPROM_ReadBuffer, memmove_apply]
    rw [if_neg (by omega), r7]
  · intro i hi
    simp only [EEPROM_ReadBuffer, memmove_apply]
    rw [if_pos (by omega)]
    congr 1
    omega

/-- Worked instance of C13: `sampleRead` asks for 4 bytes at `0x0010` of the
sample storage, which holds 16, 17, 18, 19 there. -/
theorem CMD_051B_returns_requested_bytes_witness :
    (∃ Reply : Mem,
      (CMD_051B sampleBuild sampleDevice sampleRead (fun _ => 0x77)).events =
        [Event.eepromRead (le16 (sampleRead 4) (sampleRead 5)) (sampleRead 6 % 256),
         Event.reply (SendReply sampleDevice.bIsEncrypted Reply (sampleRead 6 % 256 + 8)).wire] ∧
      sampleRead 6 % 256 + 8 ≤ 136 ∧
      (SendReply sampleDevice.bIsEncrypted Reply (sampleRead 6 % 256 + 8)).wire.length =
        sampleRead 6 % 256 + 16 ∧
      (sampleDevice.bIsEncrypted = false →
        ((SendReply sampleDevice.bIsEncrypted Reply (sampleRead 6 % 256 + 8)).wire.drop 4).take
          (sampleRead 6 % 256 + 8) = bytes Reply (sampleRead 6 % 256 + 8)) ∧
      le16 (Reply 0) (Reply 1) = 0x051C ∧
      le16 (Reply 2) (Reply 3) = sampleRead 6 % 256 + 4 ∧
      le16 (Reply 4) (Reply 5) = le16 (sampleRead 4) (sampleRead 5) ∧
      Reply 6 = sampleRead 6 % 256 ∧ Reply 7 = 0 ∧
      (∀ i, i < sampleRead 6 % 256 →
        Reply (8 + i) = sampleDevice.eeprom (le16 (sampleRead 4) (sampleRead 5) + i))) ∧
    (CMD_051B sampleBuild sampleDevice sampleRead (fun _ => 0x77)).events =
      [Event.eepromRead 0x10 4,
       Event.reply [0xAB, 0xCD, 12, 0, 0x1C, 0x05, 8, 0, 0x10, 0, 4, 0, 16, 17, 18, 19,
                    0xFF, 0xFF, 0xDC, 0xBA]] :=
  ⟨CMD_051B_returns_requested_bytes sampleBuild sampleDevice sampleRead (fun _ => 0x77)
    (by decide) (by decide) (by decide), by decide⟩

theorem writeChunk_events (s : Session) (allow : Bool) (O : Nat) (src : Mem) (i : Nat)
    (w : WriteState) (h : ∀ e ∈ w.events, ∃ a data, e = Event.eepromWrite a data) :
    ∀ e ∈ (writeChunk s allow O src i w).events, ∃ a data, e = Event.eepromWrite a data := by
  unfold writeChunk
  simp only []
  split
  · intro e he
    simp only [List.mem_append, List.mem_singleton] at he
    rcases he with he | he
    · exact h e he
    · exact ⟨_, _, he⟩
  · exact h

theorem writeLoop_events (s : Session) (allow : Bool) (O : Nat) (src : Mem) (w0 : WriteState)
    (h : ∀ e ∈ w0.events, ∃ a data, e = Event.eepromWrite a data) (n : Nat) :
    ∀ e ∈ (writeLoop s allow O src w0 n).events, ∃ a data, e = Event.eepromWrite a data := by
  induction n with
  | zero => exact h
  | succ k ih => exact writeChunk_events s allow O src k _ ih

theorem writeLoop_reload (s : Session) (allow : Bool) (O : Nat) (src : Mem) (w0 : WriteState)
    (hunl : s.g_is_locked = false) (n : Nat) :
    (writeLoop s allow O src w0 n).bReloadEeprom = true ↔
      (w0.bReloadEeprom = true ∨
        ∃ i, i < n ∧ 0x0F30 ≤ chunkAddress O i ∧ chunkAddress O i < 0x0F40) := by
  induction n with
  | zero => simp [writeLoop]
  | succ k ih =>
    have step : (writeLoop s allow O src w0 (k + 1)).bReloadEeprom =
        (if 0x0F30 ≤ chunkAddress O k ∧ chunkAddress O k < 0x0F40 then true
         else (writeLoop s allow O src w0 k).bReloadEeprom) := by
      simp only [writeLoop, writeChunk, hunl]
      split <;> simp
    rw [step]
    by_cases hw : 0x0F30 ≤ chunkAddress O k ∧ chunkAddress O k < 0x0F40
    · rw [if_pos hw]
      simp only [true_iff]
      exact Or.inr ⟨k, by omega, hw⟩
    · rw [if_neg hw, ih]
      constructor
      · rintro (h | ⟨i, hi, hx⟩)
        · exact Or.inl h
        · exact Or.inr ⟨i, by omega, hx⟩
      · rintro (h | ⟨i, hi, hx⟩)
        · exact Or.inl h
        · by_cases hik : i = k
          · subst hik
            exact absurd hx hw
          · exact Or.inr ⟨i, by omega, hx⟩

theorem count_init_writes (W : List Event)
    (h : ∀ e ∈ W, ∃ a data, e = Event.eepromWrite a data) :
    W.count Event.eepromInit = 0 := by
  rw [List.count_eq_zero]
  intro hm
  obtain ⟨a, data, e⟩ := h _ hm
  exact Event.noConfusion e

/-- C15. Storage reinitialisation happens exactly once per write command.  For
every timestamp-matching `0x051D` command handled with the device unlocked:
the calls are the chunk writes `W` (nothing but `EEPROM_WriteBuffer` calls),
then, if at least one chunk address `(Offset + 8 i) mod 65536`, `i < Size / 8`,
lies in `0x0F30..0x0F3F`, one `BOARD_EEPROM_Init` call, after the last chunk,
then the reply `0x051E`: `BOARD_EEPROM_Init` is called exactly once in that case,
however many chunks fall in the window, and not at all when no chunk address
lies in the window. -/
theorem CMD_051D_reinit_once (b : Build) (boardInit : Session → Mem → Session) (d : Device)
    (pBuffer atPCmd : Mem)
    (hts : le32 pBuffer 8 = d.session.Timestamp)
    (hunl : d.session.g_is_locked = false) :
    ∃ W, (∀ e ∈ W, ∃ a data, e = Event.eepromWrite a data) ∧
      ((∃ i, i < pBuffer 6 % 256 / 8 ∧
          0x0F30 ≤ chunkAddress (le16 (pBuffer 4) (pBuffer 5)) i ∧
          chunkAddress (le16 (pBuffer 4) (pBuffer 5)) i < 0x0F40) →
        (CMD_051D b boardInit d pBuffer atPCmd).events =
          W ++ [Event.eepromInit, Event.reply
            (SendReply d.bIsEncrypted
                (memOf [0x1E, 0x05, 0x02, 0x00, le16 (pBuffer 4) (pBuffer 5) % 256,
                  le16 (pBuffer 4) (pBuffer 5) / 256 % 256]) 6).wire] ∧
        (CMD_051D b boardInit d pBuffer atPCmd).events.count Event.eepromInit = 1) ∧
      ((¬ ∃ i, i < pBuffer 6 % 256 / 8 ∧
          0x0F30 ≤ chunkAddress (le16 (pBuffer 4) (pBuffer 5)) i ∧
          chunkAddress (le16 (pBuffer 4) (pBuffer 5)) i < 0x0F40) →
        (CMD_051D b boardInit d pBuffer atPCmd).events =
          W ++ [Event.reply
            (SendReply d.bIsEncrypted
                (memOf [0x1E, 0x05, 0x02, 0x00, le16 (pBuffer 4) (pBuffer 5) % 256,
                  le16 (pBuffer 4) (pBuffer 5) / 256 % 256]) 6).wire] ∧
        (CMD_051D b boardInit d pBuffer atPCmd).events.count Event.eepromInit = 0) := by
  have hlock : (if (reloadCountdowns b d.session).g_has_custom_aes_key = true then
      (reloadCountdowns b d.session).g_is_locked
      else (reloadCountdowns b d.session).g_has_custom_aes_key) = false := by
    show (if d.session.g_has_custom_aes_key = true then d.session.g_is_locked
      else d.session.g_has_custom_aes_key) = false
    rw [hunl]
    cases d.session.g_has_custom_aes_key <;> rfl
  have hev : ∀ e ∈ (writeLoop (reloadCountdowns b d.session) (decide (pBuffer 7 % 256 ≠ 0))
      (le16 (pBuffer 4) (pBuffer 5)) atPCmd
      { eeprom := d.eeprom, bReloadEeprom := false, events := [] }
      (pBuffer 6 % 256 / 8)).events, ∃ a data, e = Event.eepromWrite a data :=
    writeLoop_events _ _ _ _ _ (by intro e he; cases he) _
  have hrel := writeLoop_reload (reloadCountdowns b d.session) (decide (pBuffer 7 % 256 ≠ 0))
      (le16 (pBuffer 4) (pBuffer 5)) atPCmd
      { eeprom := d.eeprom, bReloadEeprom := false, events := [] } hunl (pBuffer 6 % 256 / 8)
  simp only [Bool.false_eq_true, false_or] at hrel
  refine ⟨_, hev, ?_, ?_⟩
  · intro hex
    have hr := hrel.mpr hex
    have hE : (CMD_051D b boardInit d pBuffer atPCmd).events =
        (writeLoop (reloadCountdowns b d.session) (decide (pBuffer 7 % 256 ≠ 0))
          (le16 (pBuffer 4) (pBuffer 5)) atPCmd
          { eeprom := d.eeprom, bReloadEeprom := false, events := [] }
          (pBuffer 6 % 256 / 8)).events ++ [Event.eepromInit, Event.reply
            (SendReply d.bIsEncrypted
                (memOf [0x1E, 0x05, 0x02, 0x00, le16 (pBuffer 4) (pBuffer 5) % 256,
                  le16 (pBuffer 4) (pBuffer 5) / 256 % 256]) 6).wire] := by
      simp only [CMD_051D]
      rw [if_neg (by rw [hts]; exact fun h => h rfl)]
      simp only [hlock, Bool.not_false, if_true, hr, List.append_assoc, List.singleton_append]
    refine ⟨hE, ?_⟩
    rw [hE, List.count_append, count_init_writes _ hev]
    simp [List.count_cons]
  · intro hex
    have hr : (writeLoop (reloadCountdowns b d.session) (decide (pBuffer 7 % 256 ≠ 0))
        (le16 (pBuffer 4) (pBuffer 5)) atPCmd
        { eeprom := d.eeprom, bReloadEeprom := false, events := [] }
        (pBuffer 6 % 256 / 8)).bReloadEeprom = false := by
      cases hc : (writeLoop (reloadCountdowns b d.session) (decide (pBuffer 7 % 256 ≠ 0))
        (le16 (pBuffer 4) (pBuffer 5)) atPCmd
        { eeprom := d.eeprom, bReloadEeprom := false, events := [] }
        (pBuffer 6 % 256 / 8)).bReloadEeprom with
      | false => rfl
      | true => exact absurd (hrel.mp hc) hex
    have hE : (CMD_051D b boardInit d pBuffer atPCmd).events =
        (writeLoop (reloadCountdowns b d.session) (decide (pBuffer 7 % 256 ≠ 0))
          (le16 (pBuffer 4) (pBuffer 5)) atPCmd
          { eeprom := d.eeprom, bReloadEeprom := false, events := [] }
          (pBuffer 6 % 256 / 8)).events ++ [Event.reply
            (SendReply d.bIsEncrypted
                (memOf [0x1E, 0x05, 0x02, 0x00, le16 (pBuffer 4) (pBuffer 5) % 256,
                  le16 (pBuffer 4) (pBuffer 5) / 256 % 256]) 6).wire] := by
      simp only [CMD_051D]
      rw [if_neg (by rw [hts]; exact fun h => h rfl)]
      simp only [hlock, Bool.not_false, if_true, hr, Bool.false_eq_true, if_false]
    refine ⟨hE, ?_⟩
    rw [hE, List.count_append, count_init_writes _ hev]
    simp [List.count_cons]

/-- Worked instance of C15: `sampleCalWrite` writes two chunks, both in the
calibration window; storage is reinitialised once, after both. -/
theorem CMD_051D_reinit_once_witness :
    (CMD_051D sampleBuild sampleBoardInit sampleDevice sampleCalWrite
        (memOf [1, 2, 3, 4, 5, 6, 7, 8])).events.count Event.eepromInit = 1 ∧
    (CMD_051D sampleBuild sampleBoardInit sampleDevice sampleCalWrite
        (memOf [1, 2, 3, 4, 5, 6, 7, 8])).events =
      [Event.eepromWrite 0x0F30 [1, 2, 3, 4, 5, 6, 7, 8],
       Event.eepromWrite 0x0F38 [0, 0, 0, 0, 0, 0, 0, 0],
       Event.eepromInit,
       Event.reply [0xAB, 0xCD, 6, 0, 0x1E, 0x05, 0x02, 0x00, 0x30, 0x0F, 0xFF, 0xFF, 0xDC, 0xBA]] := by
  obtain ⟨W, _, h1, _⟩ := CMD_051D_reinit_once sampleBuild sampleBoardInit sampleDevice
    sampleCalWrite (memOf [1, 2, 3, 4, 5, 6, 7, 8]) (by decide) (by decide)
  exact ⟨(h1 ⟨0, by decide, by decide, by decide⟩).2, by decide⟩

/-- C11, as stated, fails.  With `g_is_locked = true` but no custom key
configured, a timestamp-matching `0x051B` command reads storage and its reply
carries the storage bytes, so two storage contents give two replies; and a
timestamp-matching `0x051D` command writes storage. -/
theorem locked_without_custom_key_counterexample :
    sampleLockedNoKey.session.g_is_locked = true ∧
    (CMD_051B sampleBuild sampleLockedNoKey sampleRead (fun _ => 0)).events =
      [Event.eepromRead 0x10 4,
       Event.reply [0xAB, 0xCD, 12, 0, 0x1C, 0x05, 8, 0, 0x10, 0, 4, 0, 16, 17, 18, 19,
                    0xFF, 0xFF, 0xDC, 0xBA]] ∧
    (CMD_051B sampleBuild { sampleLockedNoKey with eeprom := fun _ => 0 } sampleRead
        (fun _ => 0)).events =
      [Event.eepromRead 0x10 4,
       Event.reply [0xAB, 0xCD, 12, 0, 0x1C, 0x05, 8, 0, 0x10, 0, 4, 0, 0, 0, 0, 0,
                    0xFF, 0xFF, 0xDC, 0xBA]] ∧
    (CMD_051D sampleBuild sampleBoardInit sampleLockedNoKey sampleWrite
        (memOf [1, 2, 3, 4, 5, 6, 7, 8])).events =
      [Event.eepromWrite 0x0E94 [1, 2, 3, 4, 5, 6, 7, 8],
       Event.reply [0xAB, 0xCD, 6, 0, 0x1E, 0x05, 0x02, 0x00, 0x94, 0x0E, 0xFF, 0xFF, 0xDC, 0xBA]] := by
  refine ⟨rfl, ?_, ?_, ?_⟩ <;> decide

/-- C11, amended.  With a custom key configured and `g_is_locked = true`, a
timestamp-matching `0x051B` or `0x051D` command makes no storage call: the
only call is the reply, and storage is left as it was.  The `0x051B` reply is
sent from the structure holding identifier `0x051C`, the request's offset and
size and a `Data` field of 128 zero bytes; the `0x051D` reply is `0x051E`
with the request's offset; and for any two storage contents the calls, hence
the reply bytes, are the same. -/
theorem locked_no_storage_access (b : Build) (boardInit : Session → Mem → Session) (d : Device)
    (pBuffer stack atPCmd : Mem)
    (hts : le32 pBuffer 8 = d.session.Timestamp)
    (hkey : d.session.g_has_custom_aes_key = true)
    (hlocked : d.session.g_is_locked = true) :
    (CMD_051B b d pBuffer stack).events =
      [Event.reply (SendReply d.bIsEncrypted
        (reply051B stack (le16 (pBuffer 4) (pBuffer 5)) (pBuffer 6 % 256))
        (pBuffer 6 % 256 + 8)).wire] ∧
    (CMD_051B b d pBuffer stack).device.eeprom = d.eeprom ∧
    le16 (reply051B stack (le16 (pBuffer 4) (pBuffer 5)) (pBuffer 6 % 256) 0)
         (reply051B stack (le16 (pBuffer 4) (pBuffer 5)) (pBuffer 6 % 256) 1) = 0x051C ∧
    le16 (reply051B stack (le16 (pBuffer 4) (pBuffer 5)) (pBuffer 6 % 256) 4)
         (reply051B stack (le16 (pBuffer 4) (pBuffer 5)) (pBuffer 6 % 256) 5) =
      le16 (pBuffer 4) (pBuffer 5) ∧
    reply051B stack (le16 (pBuffer 4) (pBuffer 5)) (pBuffer 6 % 256) 6 = pBuffer 6 % 256 ∧
    (∀ i, i < 128 →
      reply051B stack (le16 (pBuffer 4) (pBuffer 5)) (pBuffer 6 % 256) (8 + i) = 0) ∧
    (CMD_051D b boardInit d pBuffer atPCmd).events =
      [Event.reply (SendReply d.bIsEncrypted
        (memOf [0x1E, 0x05, 0x02, 0x00, le16 (pBuffer 4) (pBuffer 5) % 256,
          le16 (pBuffer 4) (pBuffer 5) / 256 % 256]) 6).wire] ∧
    (CMD_051D b boardInit d pBuffer atPCmd).device.eeprom = d.eeprom ∧
    (∀ e1 e2 : Mem,
      (CMD_051B b { d with eeprom := e1 } pBuffer stack).events =
        (CMD_051B b { d with eeprom := e2 } pBuffer stack).events ∧
      (CMD_051D b boardInit { d with eeprom := e1 } pBuffer atPCmd).events =
        (CMD_051D b boardInit { d with eeprom := e2 } pBuffer atPCmd).events) := by
  obtain ⟨r0, r1, _, _, r4, r5, r6, _⟩ :=
    reply051B_header stack (le16 (pBuffer 4) (pBuffer 5)) (pBuffer 6 % 256)
  have hO : le16 (pBuffer 4) (pBuffer 5) < 65536 := Nat.mod_lt _ (by omega)
  have hB : ∀ e : Mem, (CMD_051B b { d with eeprom := e } pBuffer stack).events =
      [Event.reply (SendReply d.bIsEncrypted
        (reply051B stack (le16 (pBuffer 4) (pBuffer 5)) (pBuffer 6 % 256))
        (pBuffer 6 % 256 + 8)).wire] ∧
      (CMD_051B b { d with eeprom := e } pBuffer stack).device.eeprom = e := by
    intro e
    simp only [CMD_051B]
    rw [if_neg (by rw [hts]; exact fun h => h rfl)]
    simp [reloadCountdowns, hkey, hlocked]
  have hD : ∀ e : Mem, (CMD_051D b boardInit { d with eeprom := e } pBuffer atPCmd).events =
      [Event.reply (SendReply d.bIsEncrypted
        (memOf [0x1E, 0x05, 0x02, 0x00, le16 (pBuffer 4) (pBuffer 5) % 256,
          le16 (pBuffer 4) (pBuffer 5) / 256 % 256]) 6).wire] ∧
      (CMD_051D b boardInit { d with eeprom := e } pBuffer atPCmd).device.eeprom = e := by
    intro e
    simp only [CMD_051D]
    rw [if_neg (by rw [hts]; exact fun h => h rfl)]
    simp [reloadCountdowns, hkey, hlocked]
  refine ⟨(hB d.eeprom).1, (hB d.eeprom).2, ?_, ?_, r6,
    fun i hi => reply051B_data stack _ _ i hi, (hD d.eeprom).1, (hD d.eeprom).2, ?_⟩
  · rw [r0, r1]
    decide
  · rw [r4, r5]
    exact le16_split _ hO
  · intro e1 e2
    exact ⟨by rw [(hB e1).1, (hB e2).1], by rw [(hD e1).1, (hD e2).1]⟩

/-- Worked instance of amended C11 on `sampleLockedDevice`: the replies carry no
storage byte. -/
theorem locked_no_storage_access_witness :
    (CMD_051B sampleBuild sampleLockedDevice sampleRead (fun _ => 0)).events =
      [Event.reply [0xAB, 0xCD, 12, 0, 0x1C, 0x05, 8, 0, 0x10, 0, 4, 0, 0, 0, 0, 0,
                    0xFF, 0xFF, 0xDC, 0xBA]] ∧
    (CMD_051D sampleBuild sampleBoardInit sampleLockedDevice sampleWrite
        (memOf [1, 2, 3, 4, 5, 6, 7, 8])).events =
      [Event.reply [0xAB, 0xCD, 6, 0, 0x1E, 0x05, 0x02, 0x00, 0x94, 0x0E, 0xFF, 0xFF, 0xDC, 0xBA]] ∧
    (CMD_051D sampleBuild sampleBoardInit sampleLockedDevice sampleWrite
        (memOf [1, 2, 3, 4, 5, 6, 7, 8])).device.eeprom = sampleLockedDevice.eeprom := by
  have T := locked_no_storage_access sampleBuild sampleBoardInit sampleLockedDevice
    sampleRead (fun _ => 0) (memOf [1, 2, 3, 4, 5, 6, 7, 8]) (by decide) (by decide) (by decide)
  have U := locked_no_storage_access sampleBuild sampleBoardInit sampleLockedDevice
    sampleWrite (fun _ => 0) (memOf [1, 2, 3, 4, 5, 6, 7, 8]) (by decide) (by decide) (by decide)
  exact ⟨T.1.trans (by decide), U.2.2.2.2.2.2.1.trans (by decide), U.2.2.2.2.2.2.2.1⟩

/-- In lock-screen state without the allow flag, a run of the write loop leaves
the window `0x0E98..0x0E9F` alone as long as no chunk starts in the seven
bytes below it. -/
theorem writeLoop_keeps_window (s : Session) (O : Nat) (src : Mem) (w0 : WriteState)
    (hls : s.g_is_in_lock_screen = true) (n : Nat)
    (hno : ∀ i, i < n → ¬ (0x0E91 ≤ chunkAddress O i ∧ chunkAddress O i < 0x0E98))
    (a : Nat) (h1 : 0x0E98 ≤ a) (h2 : a < 0x0EA0) :
    (writeLoop s false O src w0 n).eeprom a = w0.eeprom a := by
  induction n with
  | zero => rfl
  | succ k ih =>
    have ih' := ih (fun i hi => hno i (by omega))
    have hk := hno k (by omega)
    simp only [writeLoop, writeChunk, hls]
    split
    · rename_i hc
      simp only [EEPROM_WriteBuffer, memmove_apply]
      rw [if_neg, ih']
      rcases hc with hc | hc | hc
      · omega
      · exact absurd hc (by simp)
      · exact absurd hc (by simp)
    · exact ih'

/-- What the guard of line 316 does achieve: while the lock screen shows and
`bAllowPassword` is clear, `CMD_051D` leaves the window `0x0E98..0x0E9F` as it
was provided no chunk starts at `0x0E91..0x0E97` (so for every `Offset` that
is a multiple of 8). -/
theorem CMD_051D_password_window_kept (b : Build) (boardInit : Session → Mem → Session)
    (d : Device) (pBuffer atPCmd : Mem)
    (hls : d.session.g_is_in_lock_screen = true) (hal : pBuffer 7 % 256 = 0)
    (hno : ∀ i, i < pBuffer 6 % 256 / 8 →
      ¬ (0x0E91 ≤ chunkAddress (le16 (pBuffer 4) (pBuffer 5)) i ∧
         chunkAddress (le16 (pBuffer 4) (pBuffer 5)) i < 0x0E98))
    (a : Nat) (h1 : 0x0E98 ≤ a) (h2 : a < 0x0EA0) :
    (CMD_051D b boardInit d pBuffer atPCmd).device.eeprom a = d.eeprom a := by
  have key := writeLoop_keeps_window (reloadCountdowns b d.session)
    (le16 (pBuffer 4) (pBuffer 5)) atPCmd
    { eeprom := d.eeprom, bReloadEeprom := false, events := [] } hls _ hno a h1 h2
  have pick : ∀ (c : Bool) (W w0 : WriteState), W.eeprom a = w0.eeprom a →
      (if c = true then W else w0).eeprom a = w0.eeprom a := by
    intro c W w0 h
    cases c
    · rfl
    · exact h
  simp only [CMD_051D, hal]
  split
  · rfl
  · simp only [ne_eq, not_true_eq_false, decide_False]
    exact pick _ _ _ key

/-- C12 at its failing input.  The lock screen shows, `bAllowPassword` is clear,
and `sampleWrite` asks for one chunk at `0x0E94`: the guard of line 316 looks
at the chunk's start address only, the chunk is written, and the storage
bytes `0x0E98..0x0E9B` inside the protected window are overwritten. -/
theorem CMD_051D_password_window_overwritten :
    sampleLockScreen.session.g_is_in_lock_screen = true ∧
    sampleWrite 7 % 256 = 0 ∧
    le32 sampleWrite 8 = sampleLockScreen.session.Timestamp ∧
    (CMD_051D sampleBuild sampleBoardInit sampleLockScreen sampleWrite
        (memOf [1, 2, 3, 4, 5, 6, 7, 8])).events =
      [Event.eepromWrite 0x0E94 [1, 2, 3, 4, 5, 6, 7, 8],
       Event.reply [0xAB, 0xCD, 6, 0, 0x1E, 0x05, 0x02, 0x00, 0x94, 0x0E, 0xFF, 0xFF, 0xDC, 0xBA]] ∧
    bytes (fun k => sampleLockScreen.eeprom (0x0E98 + k)) 4 = [222, 223, 224, 225] ∧
    bytes (fun k => (CMD_051D sampleBuild sampleBoardInit sampleLockScreen sampleWrite
        (memOf [1, 2, 3, 4, 5, 6, 7, 8])).device.eeprom (0x0E98 + k)) 4 = [5, 6, 7, 8] := by
  refine ⟨rfl, ?_, ?_, ?_, ?_, ?_⟩ <;> decide

/-! ## Where the written data comes from -/

/-- Every write the loop of `CMD_051D` performs hands `EEPROM_WriteBuffer` the 8
bytes found at `&pCmd + 8 i`, `i` being the chunk index. -/
theorem writeLoop_write_data (s : Session) (allow : Bool) (O : Nat) (src : Mem)
    (w0 : WriteState) (h0 : w0.events = []) (n : Nat) :
    ∀ e ∈ (writeLoop s allow O src w0 n).events,
      ∃ i, i < n ∧
        e = Event.eepromWrite (chunkAddress O i) ((List.range 8).map (fun k => src (i * 8 + k))) := by
  induction n with
  | zero =>
    intro e he
    rw [writeLoop, h0] at he
    cases he
  | succ m ih =>
    intro e he
    simp only [writeLoop, writeChunk] at he
    split at he
    · simp only [List.mem_append, List.mem_singleton] at he
      rcases he with he | he
      · obtain ⟨i, hi, hh⟩ := ih e he
        exact ⟨i, by omega, hh⟩
      · exact ⟨m, by omega, he⟩
    · obtain ⟨i, hi, hh⟩ := ih e he
      exact ⟨i, by omega, hh⟩

/-- `CMD_051D` reads nothing of the working buffer behind the 12-byte header:
two commands with the same header leave the same storage and make the same
calls, whatever data they carry. -/
theorem CMD_051D_ignores_command_data (b : Build) (boardInit : Session → Mem → Session)
    (d : Device) (pBuffer pBuffer1 atPCmd : Mem)
    (h : ∀ j, j < 12 → pBuffer1 j = pBuffer j) :
    (CMD_051D b boardInit d pBuffer1 atPCmd).events =
      (CMD_051D b boardInit d pBuffer atPCmd).events ∧
    (CMD_051D b boardInit d pBuffer1 atPCmd).device.eeprom =
      (CMD_051D b boardInit d pBuffer atPCmd).device.eeprom := by
  have e4 := h 4 (by omega)
  have e5 := h 5 (by omega)
  have e6 := h 6 (by omega)
  have e7 := h 7 (by omega)
  have e8 : le32 pBuffer1 8 = le32 pBuffer 8 := by
    unfold le32
    rw [h 8 (by omega), h 9 (by omega), h 10 (by omega), h 11 (by omega)]
  simp only [CMD_051D, e4, e5, e6, e7, e8, and_self]

/-- The data of every `EEPROM_WriteBuffer` call of a timestamp-matching
`CMD_051D` is taken from the memory at `&pCmd`. -/
theorem CMD_051D_write_data (b : Build) (boardInit : Session → Mem → Session)
    (d : Device) (pBuffer atPCmd : Mem) (a : Nat) (data : List Nat)
    (he : Event.eepromWrite a data ∈ (CMD_051D b boardInit d pBuffer atPCmd).events) :
    ∃ i, i < pBuffer 6 % 256 / 8 ∧ a = chunkAddress (le16 (pBuffer 4) (pBuffer 5)) i ∧
      data = (List.range 8).map (fun k => atPCmd (i * 8 + k)) := by
  have key := writeLoop_write_data (reloadCountdowns b d.session) (decide (pBuffer 7 % 256 ≠ 0))
    (le16 (pBuffer 4) (pBuffer 5)) atPCmd
    { eeprom := d.eeprom, bReloadEeprom := false, events := [] } rfl (pBuffer 6 % 256 / 8)
  have inW : ∀ (c : Bool), Event.eepromWrite a data ∈
      (if c = true then writeLoop (reloadCountdowns b d.session) (decide (pBuffer 7 % 256 ≠ 0))
          (le16 (pBuffer 4) (pBuffer 5)) atPCmd
          { eeprom := d.eeprom, bReloadEeprom := false, events := [] } (pBuffer 6 % 256 / 8)
        else ({ eeprom := d.eeprom, bReloadEeprom := false, events := [] } : WriteState)).events →
      ∃ i, i < pBuffer 6 % 256 / 8 ∧ a = chunkAddress (le16 (pBuffer 4) (pBuffer 5)) i ∧
        data = (List.range 8).map (fun k => atPCmd (i * 8 + k)) := by
    intro c hc
    cases c
    · cases hc
    · obtain ⟨i, hi, hh⟩ := key _ hc
      simp only [Event.eepromWrite.injEq] at hh
      exact ⟨i, hi, hh.1, hh.2⟩
  have tail : ∀ (W : WriteState) (wire : List Nat),
      Event.eepromWrite a data ∈
        (if W.bReloadEeprom = true then W.events ++ [Event.eepromInit] else W.events) ++
          [Event.reply wire] →
      Event.eepromWrite a data ∈ W.events := by
    intro W wire hm
    cases hr : W.bReloadEeprom <;> rw [hr] at hm <;> simpa using hm
  simp only [CMD_051D] at he
  split at he
  · cases he
  · exact inW _ (tail _ _ he)

/-- C21 at its failing input.  `sampleDataWrite` matches the session timestamp,
is not denied, and carries the data `A1 .. A8` at offset 12 of the working
buffer; the one chunk write performed hands `EEPROM_WriteBuffer` the 8 bytes
found at `&pCmd` (line 317) instead, and those are what storage holds
afterwards at `0x0010 .. 0x0017`. -/
theorem CMD_051D_writes_pointer_bytes :
    le32 sampleDataWrite 8 = sampleDevice.session.Timestamp ∧
    commandChunk sampleDataWrite 0 = [0xA1, 0xA2, 0xA3, 0xA4, 0xA5, 0xA6, 0xA7, 0xA8] ∧
    (CMD_051D sampleBuild sampleBoardInit sampleDevice sampleDataWrite samplePCmdMemory).events =
      [Event.eepromWrite 0x0010 [0x00, 0x04, 0x00, 0x20, 0x5A, 0x5A, 0x5A, 0x5A],
       Event.reply [0xAB, 0xCD, 6, 0, 0x1E, 0x05, 0x02, 0x00, 0x10, 0x00, 0xFF, 0xFF, 0xDC, 0xBA]] ∧
    bytes (fun k => (CMD_051D sampleBuild sampleBoardInit sampleDevice sampleDataWrite
        samplePCmdMemory).device.eeprom (0x0010 + k)) 8 =
      [0x00, 0x04, 0x00, 0x20, 0x5A, 0x5A, 0x5A, 0x5A] := by
  refine ⟨?_, ?_, ?_, ?_⟩ <;> decide

/-! ## Sizes requested by the memory read -/

/-- The calls of a timestamp-matching `CMD_051B` that is not denied, for every
`Size` in 0..255: one storage read of `Size` bytes into the `Data` field
(index 8 of the reply) and one reply of `Size + 8` bytes. -/
theorem CMD_051B_requests (b : Build) (d : Device) (pBuffer stack : Mem)
    (hts : le32 pBuffer 8 = d.session.Timestamp)
    (hunl : d.session.g_has_custom_aes_key = true → d.session.g_is_locked = false) :
    (CMD_051B b d pBuffer stack).events =
      [Event.eepromRead (le16 (pBuffer 4) (pBuffer 5)) (pBuffer 6 % 256),
       Event.reply (SendReply d.bIsEncrypted
         (EEPROM_ReadBuffer d.eeprom (le16 (pBuffer 4) (pBuffer 5))
           (reply051B stack (le16 (pBuffer 4) (pBuffer 5)) (pBuffer 6 % 256)) 8 (pBuffer 6 % 256))
         (pBuffer 6 % 256 + 8)).wire] := by
  have hlock : (if (reloadCountdowns b d.session).g_has_custom_aes_key = true then
      (reloadCountdowns b d.session).g_is_locked else false) = false := by
    show (if d.session.g_has_custom_aes_key = true then d.session.g_is_locked else false) = false
    split
    · rename_i hk
      exact hunl hk
    · rfl
  simp only [CMD_051B]
  rw [if_neg (by rw [hts]; exact fun h => h rfl)]
  simp only [hlock]
  rfl

/-- C22 at its failing input.  `sampleBigRead` matches the session timestamp and
asks for `Size = 255`: `CMD_051B` asks storage for 255 bytes for the 128-byte
`Data` field and passes 263 bytes to `SendReply` (271 on the wire), more than
the 136 bytes of the reply structure; the storage byte of offset `0x0010 + 200`
lands 72 bytes behind the structure. -/
theorem CMD_051B_overruns_reply :
    le32 sampleBigRead 8 = sampleDevice.session.Timestamp ∧
    (CMD_051B sampleBuild sampleDevice sampleBigRead (fun _ => 0)).events =
      [Event.eepromRead 0x0010 255,
       Event.reply (SendReply false
         (EEPROM_ReadBuffer sampleDevice.eeprom 0x0010 (reply051B (fun _ => 0) 0x0010 255) 8 255)
         263).wire] ∧
    ¬ (255 ≤ 128) ∧ ¬ (263 ≤ 136) ∧
    (SendReply false
      (EEPROM_ReadBuffer sampleDevice.eeprom 0x0010 (reply051B (fun _ => 0) 0x0010 255) 8 255)
      263).wire.length = 271 ∧
    136 ≤ 8 + 200 ∧
    EEPROM_ReadBuffer sampleDevice.eeprom 0x0010 (reply051B (fun _ => 0) 0x0010 255) 8 255 (8 + 200) =
      sampleDevice.eeprom (0x0010 + 200) := by
  refine ⟨by decide, ?_, by decide, by decide, SendReply_wire_length _ _ _, by decide, by decide⟩
  exact CMD_051B_requests sampleBuild sampleDevice sampleBigRead (fun _ => 0) (by decide)
    (by decide)

end UvK5
